import Mathlib

/-!
Verification of the circular-buffer library (`CircularBuffer.c` / `CircularBuffer.h`).

The C structure `CircBuffer` holds a data area of `cbSize` cells of type
`void *`, a read pointer, a write pointer (both kept inside the data area),
and a count of valid entries.  We embed it shallowly: the data area becomes a
`List (Option α)` (a cell holding `NULL` becomes `none`), the two pointers
become indices into that list, and the `ulong` fields become `Nat`.  A
`void *` value that may be `NULL` is an `Option α`; a possibly-`NULL`
`CircBuffer *` argument is an `Option (CircBuffer α)`.

Functions that mutate the buffer through a pointer are embedded as functions
returning the C return value paired with the buffer state after the call.
`cbCopy` additionally returns the list of entries it stored into the caller's
output area `dataBuf` (for which only NULL-ness is otherwise relevant, hence
the `dataBufNull` flag); `cbPaste` receives the caller's input area as a
`List (Option α)`.  `deleteCBuffer` returns the list of element pointers the
loop `free((cBuff->_dataPtr)[i])` passes to `free`.
-/

namespace CircularBuffers

structure CircBuffer (α : Type) where
  cbSize : Nat
  dataArea : List (Option α)
  readPtr : Nat
  writePtr : Nat
  dataCount : Nat
deriving DecidableEq, Repr

/-- `ptr++;` followed by `if (ptr == dataPtr + cbSize) ptr = dataPtr;`,
as done by `cbRead` and `cbWrite` on their cursor. -/
def wrapSucc (sz i : Nat) : Nat :=
  if i + 1 = sz then 0 else i + 1

/-- `createCBuffer` (allocation failure is not modelled; the `calloc`ed data
area is all-`NULL`). -/
def createCBuffer (α : Type) (cbSize : Nat) : Option (CircBuffer α) :=
  if cbSize = 0 then none
  else some { cbSize := cbSize, dataArea := List.replicate cbSize none,
              readPtr := 0, writePtr := 0, dataCount := 0 }

/-- `cbRead`: returns the entry (or `NULL`) and the buffer state after the
call. -/
def cbRead (cBuff : Option (CircBuffer α)) : Option α × Option (CircBuffer α) :=
  match cBuff with
  | none => (none, none)
  | some b =>
    if b.dataCount = 0 then (none, some b)
    else
      (b.dataArea.getD b.readPtr none,
       some { b with dataArea := b.dataArea.set b.readPtr none,
                     dataCount := b.dataCount - 1,
                     readPtr := wrapSucc b.cbSize b.readPtr })

/-- `cbWrite`: returns the success flag (1 or 0) and the buffer state after
the call. -/
def cbWrite (cBuff : Option (CircBuffer α)) (data : Option α) :
    Nat × Option (CircBuffer α) :=
  match cBuff, data with
  | none, _ => (0, none)
  | some b, none => (0, some b)
  | some b, some d =>
    if b.dataCount = b.cbSize then (0, some b)
    else
      (1, some { b with dataArea := b.dataArea.set b.writePtr (some d),
                        dataCount := b.dataCount + 1,
                        writePtr := wrapSucc b.cbSize b.writePtr })

/-- Sequential copy of `n` cells of `l` starting at index `p`: the data moved
by `memcpy(dst, l + p, n * sizeof(void *))` when `l` is a data area. -/
def readOut (l : List (Option α)) (p n : Nat) : List (Option α) :=
  match n with
  | 0 => []
  | Nat.succ m => l.getD p none :: readOut l (p + 1) m

/-- `memset(l + p, 0, n * sizeof(void *))` on a data area: clears `n` cells
starting at index `p`. -/
def clearRange (l : List (Option α)) (p n : Nat) : List (Option α) :=
  match n with
  | 0 => l
  | Nat.succ m => clearRange (l.set p none) (p + 1) m

/-- `memcpy(l + p, src, src.length * sizeof(void *))` on a data area: writes
the entries of `src` into `l` starting at index `p`. -/
def writeRange (l : List (Option α)) (p : Nat) (src : List (Option α)) :
    List (Option α) :=
  match src with
  | [] => l
  | x :: xs => writeRange (l.set p x) (p + 1) xs

/-- The part of `cbCopy` after the checks, given the computed number `ops` of
read operations: either the two-`memcpy` wrapped transfer or the single
straight one, with the matching `memset`s, cursor update and count update. -/
def cbCopyBody (b : CircBuffer α) (ops : Nat) :
    Nat × List (Option α) × CircBuffer α :=
  if b.cbSize - b.readPtr < ops then
    let toEnd := b.cbSize - b.readPtr
    let out1 := readOut b.dataArea b.readPtr toEnd
    let l1 := clearRange b.dataArea b.readPtr toEnd
    let out2 := readOut l1 0 (ops - toEnd)
    let l2 := clearRange l1 0 (ops - toEnd)
    (ops, out1 ++ out2,
     { b with dataArea := l2, readPtr := ops - toEnd,
              dataCount := b.dataCount - ops })
  else
    (ops, readOut b.dataArea b.readPtr ops,
     { b with dataArea := clearRange b.dataArea b.readPtr ops,
              readPtr := if b.readPtr + ops = b.cbSize then 0
                         else b.readPtr + ops,
              dataCount := b.dataCount - ops })

/-- `cbCopy`: returns the number of read operations performed, the entries
stored into the caller's `dataBuf`, and the buffer state after the call. -/
def cbCopy (cBuff : Option (CircBuffer α)) (dataBufNull : Bool) (bufSize : Nat)
    (upTo : Bool) : Nat × List (Option α) × Option (CircBuffer α) :=
  match cBuff with
  | none => (0, [], none)
  | some b =>
    if dataBufNull = true ∨ bufSize = 0 then (0, [], some b)
    else if ¬upTo = true ∧ bufSize > b.cbSize then (0, [], some b)
    else if b.dataCount = 0 ∨ (¬upTo = true ∧ b.dataCount < bufSize) then
      (0, [], some b)
    else
      let ops := if ¬upTo = true then bufSize
                 else if b.dataCount ≥ bufSize then bufSize else b.dataCount
      let r := cbCopyBody b ops
      (r.1, r.2.1, some r.2.2)

/-- The part of `cbPaste` after the checks, given the computed number `ops` of
write operations. -/
def cbPasteBody (b : CircBuffer α) (src : List (Option α)) (ops : Nat) :
    Nat × CircBuffer α :=
  if b.cbSize - b.writePtr < ops then
    let toEnd := b.cbSize - b.writePtr
    let l1 := writeRange b.dataArea b.writePtr (readOut src 0 toEnd)
    let l2 := writeRange l1 0 (readOut src toEnd (ops - toEnd))
    (ops, { b with dataArea := l2, writePtr := ops - toEnd,
                   dataCount := b.dataCount + ops })
  else
    (ops, { b with dataArea := writeRange b.dataArea b.writePtr
                                 (readOut src 0 ops),
                   writePtr := if b.writePtr + ops = b.cbSize then 0
                               else b.writePtr + ops,
                   dataCount := b.dataCount + ops })

/-- `cbPaste`: returns the number of write operations performed and the buffer
state after the call. -/
def cbPaste (cBuff : Option (CircBuffer α)) (dataBuf : Option (List (Option α)))
    (bufSize : Nat) (upTo : Bool) : Nat × Option (CircBuffer α) :=
  match cBuff, dataBuf with
  | none, _ => (0, none)
  | some b, none => (0, some b)
  | some b, some src =>
    if bufSize = 0 then (0, some b)
    else if ¬upTo = true ∧ bufSize > b.cbSize then (0, some b)
    else
      let freeCells := b.cbSize - b.dataCount
      if freeCells = 0 ∨ (¬upTo = true ∧ freeCells < bufSize) then (0, some b)
      else
        let ops := if ¬upTo = true then bufSize
                   else if freeCells ≥ bufSize then bufSize else freeCells
        let r := cbPasteBody b src ops
        (r.1, some r.2)

/-- `deleteCBuffer`: returns the list of element pointers passed to `free` by
the loop `for (i = 0; i < cbSize; i++) free((cBuff->_dataPtr)[i]);` when
`toFree` is set (the buffer's own storage and metadata are freed besides, in
every case).  `free(NULL)` releases nothing, so the elements actually
released are the non-`none` entries of this list. -/
def deleteCBuffer (cBuff : Option (CircBuffer α)) (toFree : Bool) :
    List (Option α) :=
  match cBuff with
  | none => []
  | some b =>
    if toFree then (List.range b.cbSize).map (fun i => b.dataArea.getD i none)
    else []

/-- The live content of the buffer, oldest first: the `dataCount` cells
starting at `readPtr`, wrapping modulo `cbSize`. -/
def liveList (b : CircBuffer α) : List (Option α) :=
  (List.range b.dataCount).map
    (fun j => b.dataArea.getD ((b.readPtr + j) % b.cbSize) none)

/-- Structural invariant on cursors and count: both cursors in bounds, the
data area of the allocated length, the count within capacity, and the write
cursor determined by the read cursor and the count. -/
def BoundsInv (b : CircBuffer α) : Prop :=
  0 < b.cbSize ∧ b.dataArea.length = b.cbSize ∧ b.readPtr < b.cbSize ∧
  b.writePtr < b.cbSize ∧ b.dataCount ≤ b.cbSize ∧
  b.writePtr = (b.readPtr + b.dataCount) % b.cbSize

/-- Occupancy invariant: the `dataCount` cells of the live window hold
non-`NULL` entries and every other cell holds `NULL`. -/
def OccInv (b : CircBuffer α) : Prop :=
  (∀ j, j < b.dataCount →
    (b.dataArea.getD ((b.readPtr + j) % b.cbSize) none).isSome = true) ∧
  (∀ i, i < b.cbSize → (∀ j, j < b.dataCount → i ≠ (b.readPtr + j) % b.cbSize) →
    b.dataArea.getD i none = none)

def WF (b : CircBuffer α) : Prop := BoundsInv b ∧ OccInv b

/-- One successful `cbRead` step on the bare state. -/
def drainStep (b : CircBuffer α) : Option α × CircBuffer α :=
  (b.dataArea.getD b.readPtr none,
   { b with dataArea := b.dataArea.set b.readPtr none,
            dataCount := b.dataCount - 1,
            readPtr := wrapSucc b.cbSize b.readPtr })

/-- One raw slot-write step on the bare state (the body of a successful
`cbWrite`, but allowing an arbitrary entry as `cbPaste` does). -/
def pasteStep (b : CircBuffer α) (x : Option α) : CircBuffer α :=
  { b with dataArea := b.dataArea.set b.writePtr x,
           dataCount := b.dataCount + 1,
           writePtr := wrapSucc b.cbSize b.writePtr }

/-- `n` iterated `drainStep`s, collecting the entries read. -/
def drainN (b : CircBuffer α) : Nat → List (Option α) × CircBuffer α
  | 0 => ([], b)
  | Nat.succ m =>
    let s := drainStep b
    let r := drainN s.2 m
    (s.1 :: r.1, r.2)

/-- Iterated `pasteStep`s over a list of entries. -/
def pasteN (b : CircBuffer α) : List (Option α) → CircBuffer α
  | [] => b
  | x :: xs => pasteN (pasteStep b x) xs

/-- `n` iterated `cbRead` calls, collecting the returned values. -/
def readList (cBuff : Option (CircBuffer α)) :
    Nat → List (Option α) × Option (CircBuffer α)
  | 0 => ([], cBuff)
  | Nat.succ m =>
    let s := cbRead cBuff
    let r := readList s.2 m
    (s.1 :: r.1, r.2)

/-- Iterated `cbWrite` calls over a list of (non-`NULL`) elements, collecting
the returned flags. -/
def writeList (cBuff : Option (CircBuffer α)) :
    List α → List Nat × Option (CircBuffer α)
  | [] => ([], cBuff)
  | d :: ds =>
    let s := cbWrite cBuff (some d)
    let r := writeList s.2 ds
    (s.1 :: r.1, r.2)

/-- One call of the mutating API, as an event on the (possibly-`NULL`)
buffer. -/
inductive CBOp (α : Type) where
  | write (data : Option α)
  | read
  | copy (dataBufNull : Bool) (bufSize : Nat) (upTo : Bool)
  | paste (dataBuf : Option (List (Option α))) (bufSize : Nat) (upTo : Bool)

def applyOp (cBuff : Option (CircBuffer α)) : CBOp α → Option (CircBuffer α)
  | CBOp.write d => (cbWrite cBuff d).2
  | CBOp.read => (cbRead cBuff).2
  | CBOp.copy dbn n u => (cbCopy cBuff dbn n u).2.2
  | CBOp.paste src n u => (cbPaste cBuff src n u).2

def runOps (cBuff : Option (CircBuffer α)) (ops : List (CBOp α)) :
    Option (CircBuffer α) :=
  ops.foldl applyOp cBuff

/-- A `cbPaste` call is well-behaved when the caller's input block really
provides `bufSize` non-`NULL` entries; the other calls are unconditionally
well-behaved. -/
def GoodOp (op : CBOp α) : Prop :=
  match op with
  | CBOp.paste (some src) n _ => ∀ j, j < n → (src.getD j none).isSome = true
  | _ => True

instance (b : CircBuffer α) : Decidable (BoundsInv b) := by
  unfold BoundsInv; infer_instance

instance [DecidableEq α] (b : CircBuffer α) : Decidable (OccInv b) := by
  unfold OccInv; infer_instance

instance [DecidableEq α] (b : CircBuffer α) : Decidable (WF b) := by
  unfold WF; infer_instance

instance (op : CBOp α) : Decidable (GoodOp op) := by
  unfold GoodOp; rcases op with _ | _ | _ | ⟨_ | _, _, _⟩ <;> infer_instance

/-! ### Arithmetic and list helper lemmas -/

theorem getD_set_ne (l : List (Option α)) (x : Option α) {i j : Nat}
    (h : i ≠ j) : (l.set i x).getD j none = l.getD j none := by
  simp [List.getD_eq_getElem?_getD, List.getElem?_set_ne h]

theorem getD_set_self (l : List (Option α)) (x : Option α) {i : Nat}
    (h : i < l.length) : (l.set i x).getD i none = x := by
  simp [List.getD_eq_getElem?_getD, List.getElem?_set_self, h]

theorem add_mod_shift_ne (sz p k : Nat) (hk0 : 0 < k) (hk : k < sz) :
    (p + k) % sz ≠ p % sz := by
  intro h
  have hle : p ≤ p + k := Nat.le_add_right p k
  have : sz ∣ (p + k) - p := (Nat.modEq_iff_dvd' hle).mp h.symm
  rw [Nat.add_sub_cancel_left] at this
  exact absurd (Nat.le_of_dvd hk0 this) (not_le.mpr hk)

theorem window_inj {sz c : Nat} (p : Nat) (hc : c ≤ sz) {j1 j2 : Nat}
    (h1 : j1 < c) (h2 : j2 < c) (h : (p + j1) % sz = (p + j2) % sz) :
    j1 = j2 := by
  rcases Nat.lt_trichotomy j1 j2 with hlt | heq | hgt
  · exfalso
    rw [show p + j2 = (p + j1) + (j2 - j1) from by omega] at h
    exact add_mod_shift_ne sz (p + j1) (j2 - j1) (by omega) (by omega) h.symm
  · exact heq
  · exfalso
    rw [show p + j1 = (p + j2) + (j1 - j2) from by omega] at h
    exact add_mod_shift_ne sz (p + j2) (j1 - j2) (by omega) (by omega) h

theorem wrapSucc_eq_mod {sz : Nat} (i : Nat) (h : i < sz) :
    wrapSucc sz i = (i + 1) % sz := by
  unfold wrapSucc
  by_cases hi : i + 1 = sz
  · simp [hi, Nat.mod_self]
  · rw [if_neg hi, Nat.mod_eq_of_lt (by omega)]

/-! ### Single-step lemmas -/

@[simp] theorem drainStep_cbSize (b : CircBuffer α) :
    (drainStep b).2.cbSize = b.cbSize := rfl

@[simp] theorem drainStep_dataArea (b : CircBuffer α) :
    (drainStep b).2.dataArea = b.dataArea.set b.readPtr none := rfl

@[simp] theorem drainStep_readPtr (b : CircBuffer α) :
    (drainStep b).2.readPtr = wrapSucc b.cbSize b.readPtr := rfl

@[simp] theorem drainStep_writePtr (b : CircBuffer α) :
    (drainStep b).2.writePtr = b.writePtr := rfl

@[simp] theorem drainStep_dataCount (b : CircBuffer α) :
    (drainStep b).2.dataCount = b.dataCount - 1 := rfl

@[simp] theorem drainStep_fst (b : CircBuffer α) :
    (drainStep b).1 = b.dataArea.getD b.readPtr none := rfl

@[simp] theorem pasteStep_cbSize (b : CircBuffer α) (x : Option α) :
    (pasteStep b x).cbSize = b.cbSize := rfl

@[simp] theorem pasteStep_dataArea (b : CircBuffer α) (x : Option α) :
    (pasteStep b x).dataArea = b.dataArea.set b.writePtr x := rfl

@[simp] theorem pasteStep_readPtr (b : CircBuffer α) (x : Option α) :
    (pasteStep b x).readPtr = b.readPtr := rfl

@[simp] theorem pasteStep_writePtr (b : CircBuffer α) (x : Option α) :
    (pasteStep b x).writePtr = wrapSucc b.cbSize b.writePtr := rfl

@[simp] theorem pasteStep_dataCount (b : CircBuffer α) (x : Option α) :
    (pasteStep b x).dataCount = b.dataCount + 1 := rfl

theorem drainStep_bounds (b : CircBuffer α) (h : BoundsInv b)
    (hc : 0 < b.dataCount) : BoundsInv (drainStep b).2 := by
  obtain ⟨hsz, hlen, hp, hw, hcnt, hrel⟩ := h
  refine ⟨hsz, by simp [hlen], ?_, hw, by simp; omega, ?_⟩
  · show wrapSucc b.cbSize b.readPtr < b.cbSize
    rw [wrapSucc_eq_mod _ hp]
    exact Nat.mod_lt _ hsz
  · show b.writePtr = (wrapSucc b.cbSize b.readPtr + (b.dataCount - 1)) % b.cbSize
    rw [wrapSucc_eq_mod _ hp, Nat.mod_add_mod,
      show b.readPtr + 1 + (b.dataCount - 1) = b.readPtr + b.dataCount from by
        omega]
    exact hrel

theorem pasteStep_bounds (b : CircBuffer α) (x : Option α) (h : BoundsInv b)
    (hc : b.dataCount < b.cbSize) : BoundsInv (pasteStep b x) := by
  obtain ⟨hsz, hlen, hp, hw, hcnt, hrel⟩ := h
  refine ⟨hsz, by simp [hlen], hp, ?_, by simp; omega, ?_⟩
  · show wrapSucc b.cbSize b.writePtr < b.cbSize
    rw [wrapSucc_eq_mod _ hw]
    exact Nat.mod_lt _ hsz
  · show wrapSucc b.cbSize b.writePtr = (b.readPtr + (b.dataCount + 1)) % b.cbSize
    rw [wrapSucc_eq_mod _ hw, hrel, Nat.mod_add_mod,
      show b.readPtr + b.dataCount + 1 = b.readPtr + (b.dataCount + 1) from by
        omega]

theorem liveList_eq_cons (b : CircBuffer α) (h : BoundsInv b)
    (hc : 0 < b.dataCount) :
    liveList b = b.dataArea.getD b.readPtr none :: liveList (drainStep b).2 := by
  obtain ⟨hsz, hlen, hp, hw, hcnt, hrel⟩ := h
  obtain ⟨m, hm⟩ : ∃ m, b.dataCount = m + 1 := ⟨b.dataCount - 1, by omega⟩
  unfold liveList
  simp only [drainStep_cbSize, drainStep_dataArea, drainStep_readPtr,
    drainStep_dataCount, hm, Nat.add_sub_cancel]
  rw [List.range_succ_eq_map, List.map_cons, List.map_map]
  congr 1
  · rw [Nat.add_zero, Nat.mod_eq_of_lt hp]
  · refine List.map_congr_left (fun j hj => ?_)
    rw [List.mem_range] at hj
    rw [Function.comp_apply, wrapSucc_eq_mod _ hp, Nat.mod_add_mod,
      show b.readPtr + 1 + j = b.readPtr + Nat.succ j from by omega]
    have hne : (b.readPtr + Nat.succ j) % b.cbSize ≠ b.readPtr := by
      have h2 := add_mod_shift_ne b.cbSize b.readPtr (Nat.succ j)
        (by omega) (by omega)
      rw [Nat.mod_eq_of_lt hp] at h2
      exact h2
    rw [getD_set_ne _ _ (Ne.symm hne)]

theorem liveList_pasteStep (b : CircBuffer α) (x : Option α) (h : BoundsInv b)
    (hc : b.dataCount < b.cbSize) :
    liveList (pasteStep b x) = liveList b ++ [x] := by
  obtain ⟨hsz, hlen, hp, hw, hcnt, hrel⟩ := h
  unfold liveList
  simp only [pasteStep_cbSize, pasteStep_dataArea, pasteStep_readPtr,
    pasteStep_dataCount]
  rw [List.range_succ, List.map_append, List.map_singleton]
  congr 1
  · refine List.map_congr_left (fun j hj => ?_)
    rw [List.mem_range] at hj
    have hne : b.writePtr ≠ (b.readPtr + j) % b.cbSize := by
      rw [hrel]
      intro hcontra
      exact absurd (window_inj b.readPtr (c := b.dataCount + 1) (by omega)
        (by omega) (by omega) hcontra.symm) (by omega)
    exact getD_set_ne _ _ hne
  · rw [← hrel, getD_set_self _ _ (by omega)]

theorem drainStep_occ (b : CircBuffer α) (hB : BoundsInv b) (hO : OccInv b)
    (hc : 0 < b.dataCount) : OccInv (drainStep b).2 := by
  obtain ⟨hsz, hlen, hp, hw, hcnt, hrel⟩ := hB
  obtain ⟨hOcc, hEmpty⟩ := hO
  unfold OccInv
  simp only [drainStep_cbSize, drainStep_dataArea, drainStep_readPtr,
    drainStep_dataCount]
  constructor
  · intro j hj
    rw [wrapSucc_eq_mod _ hp, Nat.mod_add_mod,
      show b.readPtr + 1 + j = b.readPtr + (j + 1) from by omega]
    have hne : (b.readPtr + (j + 1)) % b.cbSize ≠ b.readPtr := by
      have h2 := add_mod_shift_ne b.cbSize b.readPtr (j + 1)
        (by omega) (by omega)
      rw [Nat.mod_eq_of_lt hp] at h2
      exact h2
    rw [getD_set_ne _ _ (Ne.symm hne)]
    exact hOcc (j + 1) (by omega)
  · intro i hi hnotin
    by_cases hip : i = b.readPtr
    · rw [hip, getD_set_self _ _ (by omega)]
    · rw [getD_set_ne _ _ (fun hh => hip hh.symm)]
      refine hEmpty i hi (fun j hj => ?_)
      rcases j with _ | j'
      · rw [Nat.add_zero, Nat.mod_eq_of_lt hp]
        exact hip
      · have h3 := hnotin j' (by omega)
        rw [wrapSucc_eq_mod _ hp, Nat.mod_add_mod] at h3
        rw [show b.readPtr + (j' + 1) = b.readPtr + 1 + j' from by omega]
        exact h3

theorem pasteStep_occ (b : CircBuffer α) (x : Option α) (hB : BoundsInv b)
    (hO : OccInv b) (hc : b.dataCount < b.cbSize) (hx : x.isSome = true) :
    OccInv (pasteStep b x) := by
  obtain ⟨hsz, hlen, hp, hw, hcnt, hrel⟩ := hB
  obtain ⟨hOcc, hEmpty⟩ := hO
  unfold OccInv
  simp only [pasteStep_cbSize, pasteStep_dataArea, pasteStep_readPtr,
    pasteStep_dataCount]
  constructor
  · intro j hj
    by_cases hjc : j = b.dataCount
    · rw [hjc, ← hrel, getD_set_self _ _ (by omega)]
      exact hx
    · have hne : b.writePtr ≠ (b.readPtr + j) % b.cbSize := by
        rw [hrel]
        intro hcontra
        exact absurd (window_inj b.readPtr (c := b.dataCount + 1) (by omega)
          (by omega) (by omega) hcontra.symm) (fun hh => hjc hh)
      rw [getD_set_ne _ _ hne]
      exact hOcc j (by omega)
  · intro i hi hnotin
    have hiw : i ≠ b.writePtr := by
      intro hh
      exact hnotin b.dataCount (by omega) (by rw [hh, hrel])
    rw [getD_set_ne _ _ (Ne.symm hiw)]
    exact hEmpty i hi (fun j hj => hnotin j (by omega))

theorem drainStep_WF (b : CircBuffer α) (h : WF b) (hc : 0 < b.dataCount) :
    WF (drainStep b).2 :=
  ⟨drainStep_bounds b h.1 hc, drainStep_occ b h.1 h.2 hc⟩

theorem pasteStep_WF (b : CircBuffer α) (x : Option α) (h : WF b)
    (hc : b.dataCount < b.cbSize) (hx : x.isSome = true) :
    WF (pasteStep b x) :=
  ⟨pasteStep_bounds b x h.1 hc, pasteStep_occ b x h.1 h.2 hc hx⟩

theorem drainStep_fst_isSome (b : CircBuffer α) (h : WF b)
    (hc : 0 < b.dataCount) : ((drainStep b).1).isSome = true := by
  have h0 := h.2.1 0 hc
  rw [Nat.add_zero, Nat.mod_eq_of_lt h.1.2.2.1] at h0
  exact h0

/-! ### Iterated steps -/

@[simp] theorem drainN_zero (b : CircBuffer α) : drainN b 0 = ([], b) := rfl

@[simp] theorem drainN_succ_fst (b : CircBuffer α) (m : Nat) :
    (drainN b (Nat.succ m)).1 = (drainStep b).1 :: (drainN (drainStep b).2 m).1 :=
  rfl

@[simp] theorem drainN_succ_snd (b : CircBuffer α) (m : Nat) :
    (drainN b (Nat.succ m)).2 = (drainN (drainStep b).2 m).2 := rfl

@[simp] theorem pasteN_nil (b : CircBuffer α) : pasteN b [] = b := rfl

@[simp] theorem pasteN_cons (b : CircBuffer α) (x : Option α)
    (xs : List (Option α)) : pasteN b (x :: xs) = pasteN (pasteStep b x) xs :=
  rfl

theorem drainN_shape (n : Nat) (b : CircBuffer α) :
    (drainN b n).2.cbSize = b.cbSize ∧ (drainN b n).2.writePtr = b.writePtr ∧
    (drainN b n).2.dataCount = b.dataCount - n ∧
    (drainN b n).2.dataArea.length = b.dataArea.length := by
  induction n generalizing b with
  | zero => simp
  | succ m ih =>
    obtain ⟨i1, i2, i3, i4⟩ := ih (drainStep b).2
    refine ⟨by simp [i1], by simp [i2], ?_, by simp at i4 ⊢; rw [i4]⟩
    rw [drainN_succ_snd, i3, drainStep_dataCount]
    omega

theorem pasteN_shape (xs : List (Option α)) (b : CircBuffer α) :
    (pasteN b xs).cbSize = b.cbSize ∧ (pasteN b xs).readPtr = b.readPtr ∧
    (pasteN b xs).dataCount = b.dataCount + xs.length ∧
    (pasteN b xs).dataArea.length = b.dataArea.length := by
  induction xs generalizing b with
  | nil => simp
  | cons x xs ih =>
    obtain ⟨i1, i2, i3, i4⟩ := ih (pasteStep b x)
    refine ⟨by simp [i1], by simp [i2], ?_, by simp at i4 ⊢; rw [i4]⟩
    rw [pasteN_cons, i3, pasteStep_dataCount, List.length_cons]
    omega

theorem drainN_WF (n : Nat) (b : CircBuffer α) (h : WF b)
    (hn : n ≤ b.dataCount) :
    WF (drainN b n).2 ∧ (drainN b n).1 = (liveList b).take n ∧
    liveList (drainN b n).2 = (liveList b).drop n := by
  induction n generalizing b with
  | zero => simp [h]
  | succ m ih =>
    have hc : 0 < b.dataCount := by omega
    have hWF1 := drainStep_WF b h hc
    have hcons := liveList_eq_cons b h.1 hc
    obtain ⟨i1, i2, i3⟩ := ih (drainStep b).2 hWF1
      (by rw [drainStep_dataCount]; omega)
    refine ⟨i1, ?_, ?_⟩
    · rw [drainN_succ_fst, i2, hcons, List.take_succ_cons, drainStep_fst]
    · rw [drainN_succ_snd, i3, hcons, List.drop_succ_cons]

theorem drainN_bounds (n : Nat) (b : CircBuffer α) (h : BoundsInv b)
    (hn : n ≤ b.dataCount) : BoundsInv (drainN b n).2 := by
  induction n generalizing b with
  | zero => simpa using h
  | succ m ih =>
    have hc : 0 < b.dataCount := by omega
    rw [drainN_succ_snd]
    exact ih (drainStep b).2 (drainStep_bounds b h hc)
      (by rw [drainStep_dataCount]; omega)

theorem pasteN_WF (xs : List (Option α)) (b : CircBuffer α) (h : WF b)
    (hn : b.dataCount + xs.length ≤ b.cbSize)
    (hx : ∀ x ∈ xs, x.isSome = true) :
    WF (pasteN b xs) ∧ liveList (pasteN b xs) = liveList b ++ xs := by
  induction xs generalizing b with
  | nil => simp [h]
  | cons x xs ih =>
    have hc : b.dataCount < b.cbSize := by
      rw [List.length_cons] at hn; omega
    have hWF1 := pasteStep_WF b x h hc (hx x (List.mem_cons_self x xs))
    obtain ⟨i1, i2⟩ := ih (pasteStep b x) hWF1
      (by rw [pasteStep_dataCount, pasteStep_cbSize]
          rw [List.length_cons] at hn; omega)
      (fun y hy => hx y (List.mem_cons_of_mem x hy))
    refine ⟨i1, ?_⟩
    rw [pasteN_cons, i2, liveList_pasteStep b x h.1 hc]
    simp

theorem pasteN_bounds (xs : List (Option α)) (b : CircBuffer α)
    (h : BoundsInv b) (hn : b.dataCount + xs.length ≤ b.cbSize) :
    BoundsInv (pasteN b xs) := by
  induction xs generalizing b with
  | nil => simpa using h
  | cons x xs ih =>
    have hc : b.dataCount < b.cbSize := by
      rw [List.length_cons] at hn; omega
    rw [pasteN_cons]
    exact ih (pasteStep b x) (pasteStep_bounds b x h hc)
      (by rw [pasteStep_dataCount, pasteStep_cbSize]
          rw [List.length_cons] at hn; omega)

/-! ### Iterated single-element API calls -/

@[simp] theorem readList_zero (cb : Option (CircBuffer α)) :
    readList cb 0 = ([], cb) := rfl

@[simp] theorem readList_succ (cb : Option (CircBuffer α)) (m : Nat) :
    readList cb (Nat.succ m) =
      ((cbRead cb).1 :: (readList (cbRead cb).2 m).1,
       (readList (cbRead cb).2 m).2) := rfl

@[simp] theorem writeList_nil (cb : Option (CircBuffer α)) :
    writeList cb ([] : List α) = ([], cb) := rfl

@[simp] theorem writeList_cons (cb : Option (CircBuffer α)) (d : α)
    (ds : List α) :
    writeList cb (d :: ds) =
      ((cbWrite cb (some d)).1 :: (writeList (cbWrite cb (some d)).2 ds).1,
       (writeList (cbWrite cb (some d)).2 ds).2) := rfl

theorem cbRead_some_pos (b : CircBuffer α) (hc : b.dataCount ≠ 0) :
    cbRead (some b) = ((drainStep b).1, some (drainStep b).2) := by
  simp [cbRead, drainStep, hc]

theorem cbWrite_some_success (b : CircBuffer α) (d : α)
    (hc : b.dataCount ≠ b.cbSize) :
    cbWrite (some b) (some d) = (1, some (pasteStep b (some d))) := by
  simp [cbWrite, pasteStep, hc]

theorem readList_eq_drainN (n : Nat) (b : CircBuffer α)
    (hn : n ≤ b.dataCount) :
    readList (some b) n = ((drainN b n).1, some (drainN b n).2) := by
  induction n generalizing b with
  | zero => rfl
  | succ m ih =>
    have h0 : b.dataCount ≠ 0 := by omega
    have ihs := ih (drainStep b).2 (by rw [drainStep_dataCount]; omega)
    rw [readList_succ, cbRead_some_pos b h0]
    rw [show ((drainStep b).1, some (drainStep b).2).2 = some (drainStep b).2
      from rfl, ihs]
    rfl

theorem writeList_eq_pasteN (ds : List α) (b : CircBuffer α)
    (h : b.dataCount + ds.length ≤ b.cbSize) :
    writeList (some b) ds =
      (List.replicate ds.length 1, some (pasteN b (ds.map some))) := by
  induction ds generalizing b with
  | nil => rfl
  | cons d ds ih =>
    have hc : b.dataCount ≠ b.cbSize := by
      rw [List.length_cons] at h; omega
    have ihs := ih (pasteStep b (some d))
      (by rw [pasteStep_dataCount, pasteStep_cbSize]
          rw [List.length_cons] at h; omega)
    rw [writeList_cons, cbWrite_some_success b d hc]
    rw [show ((1 : Nat), some (pasteStep b (some d))).2 =
      some (pasteStep b (some d)) from rfl, ihs]
    rfl

/-! ### Contiguous closed forms for the bulk transfers -/

@[simp] theorem readOut_zero (l : List (Option α)) (p : Nat) :
    readOut l p 0 = [] := rfl

theorem readOut_succ (l : List (Option α)) (p m : Nat) :
    readOut l p (Nat.succ m) = l.getD p none :: readOut l (p + 1) m := rfl

@[simp] theorem clearRange_zero (l : List (Option α)) (p : Nat) :
    clearRange l p 0 = l := rfl

theorem clearRange_succ (l : List (Option α)) (p m : Nat) :
    clearRange l p (Nat.succ m) = clearRange (l.set p none) (p + 1) m := rfl

@[simp] theorem writeRange_nil (l : List (Option α)) (p : Nat) :
    writeRange l p [] = l := rfl

theorem writeRange_cons (l : List (Option α)) (p : Nat) (x : Option α)
    (xs : List (Option α)) :
    writeRange l p (x :: xs) = writeRange (l.set p x) (p + 1) xs := rfl

@[simp] theorem drainN_succ (b : CircBuffer α) (m : Nat) :
    drainN b (Nat.succ m) =
      ((drainStep b).1 :: (drainN (drainStep b).2 m).1,
       (drainN (drainStep b).2 m).2) := rfl

theorem readOut_set_lt (m : Nat) (l : List (Option α)) (x : Option α) :
    ∀ q, ∀ i < q, readOut (l.set i x) q m = readOut l q m := by
  induction m with
  | zero => intro q i hi; rfl
  | succ k ih =>
    intro q i hi
    rw [readOut_succ, readOut_succ, getD_set_ne _ _ (Nat.ne_of_lt hi),
      ih (q + 1) i (by omega)]

theorem readOut_append (m : Nat) :
    ∀ (l : List (Option α)) (q k : Nat),
      readOut l q (m + k) = readOut l q m ++ readOut l (q + m) k := by
  induction m with
  | zero => intro l q k; simp
  | succ n ih =>
    intro l q k
    rw [show Nat.succ n + k = Nat.succ (n + k) from by omega, readOut_succ,
      readOut_succ, ih l (q + 1) k,
      show q + 1 + n = q + Nat.succ n from by omega, List.cons_append]

theorem readOut_length (l : List (Option α)) (n : Nat) :
    ∀ p, (readOut l p n).length = n := by
  induction n with
  | zero => intro p; rfl
  | succ m ih =>
    intro p
    rw [readOut_succ, List.length_cons, ih (p + 1)]

theorem drainN_contig (n : Nat) :
    ∀ (l : List (Option α)) (sz p w c : Nat), p < sz → p + n ≤ sz →
      drainN ⟨sz, l, p, w, c⟩ n =
        (readOut l p n,
         ⟨sz, clearRange l p n, if p + n = sz then 0 else p + n, w, c - n⟩) := by
  induction n with
  | zero =>
    intro l sz p w c hp hpn
    rw [drainN_zero, readOut_zero, clearRange_zero,
      if_neg (by omega : ¬(p + 0 = sz))]
    rfl
  | succ m ih =>
    intro l sz p w c hp hpn
    rw [drainN_succ]
    have hstep : drainStep (⟨sz, l, p, w, c⟩ : CircBuffer α) =
        (l.getD p none, ⟨sz, l.set p none, wrapSucc sz p, w, c - 1⟩) := rfl
    rw [hstep]
    dsimp only
    by_cases hwrap : p + 1 = sz
    · have hm : m = 0 := by omega
      subst hm
      rw [drainN_zero]
      unfold wrapSucc
      rw [if_pos hwrap, readOut_succ, readOut_zero, clearRange_succ,
        clearRange_zero]
    · have hp1 : p + 1 < sz := by omega
      unfold wrapSucc
      rw [if_neg hwrap, ih (l.set p none) sz (p + 1) w (c - 1) hp1 (by omega)]
      dsimp only
      rw [readOut_succ, readOut_set_lt m l none (p + 1) p (by omega),
        clearRange_succ,
        show p + 1 + m = p + Nat.succ m from by omega,
        show c - 1 - m = c - Nat.succ m from by omega]

theorem drainN_add (m : Nat) :
    ∀ (k : Nat) (b : CircBuffer α),
      drainN b (m + k) =
        ((drainN b m).1 ++ (drainN (drainN b m).2 k).1,
         (drainN (drainN b m).2 k).2) := by
  induction m with
  | zero => intro k b; simp
  | succ n ih =>
    intro k b
    rw [show Nat.succ n + k = Nat.succ (n + k) from by omega, drainN_succ,
      drainN_succ]
    dsimp only
    rw [ih k (drainStep b).2]
    dsimp only
    rw [List.cons_append]

theorem cbCopyBody_eq_drainN (b : CircBuffer α) (ops : Nat)
    (hp : b.readPtr < b.cbSize) (hops : ops ≤ b.cbSize) :
    cbCopyBody b ops = (ops, (drainN b ops).1, (drainN b ops).2) := by
  obtain ⟨sz, l, p, w, c⟩ := b
  simp only at hp hops
  unfold cbCopyBody
  by_cases hsplit : sz - p < ops
  · rw [if_pos (by simpa using hsplit)]
    rw [show drainN (⟨sz, l, p, w, c⟩ : CircBuffer α) ops =
        drainN (⟨sz, l, p, w, c⟩ : CircBuffer α) ((sz - p) + (ops - (sz - p)))
      from by rw [show (sz - p) + (ops - (sz - p)) = ops from by omega]]
    rw [drainN_add]
    rw [drainN_contig (sz - p) l sz p w c hp (by omega)]
    dsimp only
    rw [if_pos (by omega : p + (sz - p) = sz)]
    rw [drainN_contig (ops - (sz - p)) (clearRange l p (sz - p)) sz 0 w
      (c - (sz - p)) (by omega) (by omega)]
    dsimp only
    rw [if_neg (by omega : ¬(0 + (ops - (sz - p)) = sz))]
    rw [show c - (sz - p) - (ops - (sz - p)) = c - ops from by omega,
      Nat.zero_add]
  · rw [if_neg (by simpa using hsplit)]
    have hle : p + ops ≤ sz := by omega
    rw [drainN_contig ops l sz p w c hp hle]

theorem writeRange_length (src : List (Option α)) :
    ∀ (l : List (Option α)) (p : Nat),
      (writeRange l p src).length = l.length := by
  induction src with
  | nil => intro l p; rfl
  | cons x xs ih =>
    intro l p
    rw [writeRange_cons, ih (l.set p x) (p + 1), List.length_set]

theorem pasteN_contig (xs : List (Option α)) :
    ∀ (l : List (Option α)) (sz p w c : Nat), w < sz → w + xs.length ≤ sz →
      pasteN ⟨sz, l, p, w, c⟩ xs =
        ⟨sz, writeRange l w xs, p,
         if w + xs.length = sz then 0 else w + xs.length, c + xs.length⟩ := by
  induction xs with
  | nil =>
    intro l sz p w c hw hwn
    rw [pasteN_nil, writeRange_nil, List.length_nil,
      if_neg (by omega : ¬(w + 0 = sz))]
    rfl
  | cons x xs ih =>
    intro l sz p w c hw hwn
    rw [pasteN_cons]
    have hstep : pasteStep (⟨sz, l, p, w, c⟩ : CircBuffer α) x =
        ⟨sz, l.set w x, p, wrapSucc sz w, c + 1⟩ := rfl
    rw [hstep]
    rw [List.length_cons] at hwn
    rw [List.length_cons, writeRange_cons]
    by_cases hwrap : w + 1 = sz
    · have hlen0 : xs.length = 0 := by omega
      rw [List.length_eq_zero] at hlen0
      subst hlen0
      rw [pasteN_nil, writeRange_nil]
      unfold wrapSucc
      rw [if_pos hwrap, List.length_nil,
        if_pos (show w + (0 + 1) = sz from by omega)]
    · have hw1 : w + 1 < sz := by omega
      unfold wrapSucc
      rw [if_neg hwrap, ih (l.set w x) sz p (w + 1) (c + 1) hw1 (by omega)]
      rw [show w + 1 + xs.length = w + (xs.length + 1) from by omega,
        show c + 1 + xs.length = c + (xs.length + 1) from by omega]

theorem pasteN_add (xs : List (Option α)) :
    ∀ (ys : List (Option α)) (b : CircBuffer α),
      pasteN b (xs ++ ys) = pasteN (pasteN b xs) ys := by
  induction xs with
  | nil => intro ys b; rfl
  | cons x xs ih =>
    intro ys b
    rw [List.cons_append, pasteN_cons, pasteN_cons, ih]

theorem cbPasteBody_eq_pasteN (b : CircBuffer α) (src : List (Option α))
    (ops : Nat) (hw : b.writePtr < b.cbSize) (hops : ops ≤ b.cbSize) :
    cbPasteBody b src ops = (ops, pasteN b (readOut src 0 ops)) := by
  obtain ⟨sz, l, p, w, c⟩ := b
  simp only at hw hops
  unfold cbPasteBody
  by_cases hsplit : sz - w < ops
  · rw [if_pos (by simpa using hsplit)]
    rw [show readOut src 0 ops = readOut src 0 ((sz - w) + (ops - (sz - w)))
      from by rw [show (sz - w) + (ops - (sz - w)) = ops from by omega]]
    rw [readOut_append, pasteN_add]
    rw [pasteN_contig (readOut src 0 (sz - w)) l sz p w c hw
      (by rw [readOut_length]; omega)]
    rw [readOut_length, if_pos (by omega : w + (sz - w) = sz)]
    rw [Nat.zero_add]
    rw [pasteN_contig (readOut src (sz - w) (ops - (sz - w))) _ sz p 0 _
      (by omega) (by rw [readOut_length]; omega)]
    rw [readOut_length, if_neg (by omega : ¬(0 + (ops - (sz - w)) = sz)),
      Nat.zero_add,
      show c + (sz - w) + (ops - (sz - w)) = c + ops from by omega]
  · rw [if_neg (by simpa using hsplit)]
    have hle : w + ops ≤ sz := by omega
    rw [pasteN_contig (readOut src 0 ops) l sz p w c hw
      (by rw [readOut_length]; omega), readOut_length]

/-! ### Characterization of the full bulk calls -/

theorem cbCopyBody_fst (b : CircBuffer α) (ops : Nat) :
    (cbCopyBody b ops).1 = ops := by
  unfold cbCopyBody
  split <;> rfl

theorem cbCopyBody_count (b : CircBuffer α) (ops : Nat) :
    (cbCopyBody b ops).2.2.dataCount = b.dataCount - ops := by
  unfold cbCopyBody
  split <;> rfl

theorem cbPasteBody_fst (b : CircBuffer α) (src : List (Option α)) (ops : Nat) :
    (cbPasteBody b src ops).1 = ops := by
  unfold cbPasteBody
  split <;> rfl

theorem cbPasteBody_count (b : CircBuffer α) (src : List (Option α))
    (ops : Nat) :
    (cbPasteBody b src ops).2.dataCount = b.dataCount + ops := by
  unfold cbPasteBody
  split <;> rfl

theorem cbCopy_some_eq (b : CircBuffer α) (dbn : Bool) (n : Nat) (u : Bool) :
    cbCopy (some b) dbn n u =
      if dbn = true ∨ n = 0 then (0, [], some b)
      else if ¬u = true ∧ n > b.cbSize then (0, [], some b)
      else if b.dataCount = 0 ∨ (¬u = true ∧ b.dataCount < n) then
        (0, [], some b)
      else
        ((cbCopyBody b (if ¬u = true then n
            else if b.dataCount ≥ n then n else b.dataCount)).1,
         (cbCopyBody b (if ¬u = true then n
            else if b.dataCount ≥ n then n else b.dataCount)).2.1,
         some (cbCopyBody b (if ¬u = true then n
            else if b.dataCount ≥ n then n else b.dataCount)).2.2) := rfl

theorem cbPaste_some_eq (b : CircBuffer α) (src : List (Option α)) (n : Nat)
    (u : Bool) :
    cbPaste (some b) (some src) n u =
      if n = 0 then (0, some b)
      else if ¬u = true ∧ n > b.cbSize then (0, some b)
      else if b.cbSize - b.dataCount = 0 ∨
          (¬u = true ∧ b.cbSize - b.dataCount < n) then (0, some b)
      else
        ((cbPasteBody b src (if ¬u = true then n
            else if b.cbSize - b.dataCount ≥ n then n
                 else b.cbSize - b.dataCount)).1,
         some (cbPasteBody b src (if ¬u = true then n
            else if b.cbSize - b.dataCount ≥ n then n
                 else b.cbSize - b.dataCount)).2) := rfl

theorem cbCopy_fail (b : CircBuffer α) (dbn : Bool) (n : Nat) (u : Bool)
    (h : (dbn = true ∨ n = 0) ∨ (¬u = true ∧ n > b.cbSize) ∨
         (b.dataCount = 0 ∨ (¬u = true ∧ b.dataCount < n))) :
    cbCopy (some b) dbn n u = (0, [], some b) := by
  rw [cbCopy_some_eq]
  by_cases h1 : dbn = true ∨ n = 0
  · rw [if_pos h1]
  · rw [if_neg h1]
    by_cases h2 : ¬u = true ∧ n > b.cbSize
    · rw [if_pos h2]
    · rw [if_neg h2]
      have h3 : b.dataCount = 0 ∨ (¬u = true ∧ b.dataCount < n) := by tauto
      rw [if_pos h3]

theorem cbPaste_fail (b : CircBuffer α) (src : List (Option α)) (n : Nat)
    (u : Bool)
    (h : n = 0 ∨ (¬u = true ∧ n > b.cbSize) ∨
         (b.cbSize - b.dataCount = 0 ∨
          (¬u = true ∧ b.cbSize - b.dataCount < n))) :
    cbPaste (some b) (some src) n u = (0, some b) := by
  rw [cbPaste_some_eq]
  by_cases h1 : n = 0
  · rw [if_pos h1]
  · rw [if_neg h1]
    by_cases h2 : ¬u = true ∧ n > b.cbSize
    · rw [if_pos h2]
    · rw [if_neg h2]
      have h3 : b.cbSize - b.dataCount = 0 ∨
          (¬u = true ∧ b.cbSize - b.dataCount < n) := by tauto
      rw [if_pos h3]

theorem cbCopy_exact_success (b : CircBuffer α) (n : Nat) (hn : n ≠ 0)
    (hsz : n ≤ b.cbSize) (hcnt : n ≤ b.dataCount) (hp : b.readPtr < b.cbSize) :
    cbCopy (some b) false n false =
      (n, (drainN b n).1, some (drainN b n).2) := by
  rw [cbCopy_some_eq]
  rw [if_neg (by simp [hn]), if_neg (fun hand => absurd hand.2 (by omega)),
    if_neg (by push_neg; exact ⟨by omega, fun _ => by omega⟩),
    if_pos (by simp : ¬(false = true)),
    cbCopyBody_eq_drainN b n hp hsz]

theorem cbCopy_upTo_success (b : CircBuffer α) (n : Nat) (hn : n ≠ 0)
    (hc : b.dataCount ≠ 0) (hp : b.readPtr < b.cbSize)
    (hcnt : b.dataCount ≤ b.cbSize) :
    cbCopy (some b) false n true =
      (min n b.dataCount, (drainN b (min n b.dataCount)).1,
       some (drainN b (min n b.dataCount)).2) := by
  rw [cbCopy_some_eq]
  rw [if_neg (by simp [hn]), if_neg (by simp), if_neg (by simp [hc]),
    if_neg (by simp : ¬¬(true = true)),
    show (if b.dataCount ≥ n then n else b.dataCount) = min n b.dataCount
      from by rw [Nat.min_def],
    cbCopyBody_eq_drainN b (min n b.dataCount) hp (by omega)]

theorem cbPaste_exact_success (b : CircBuffer α) (src : List (Option α))
    (n : Nat) (hn : n ≠ 0) (hsz : n ≤ b.cbSize)
    (hfree : n ≤ b.cbSize - b.dataCount) (hw : b.writePtr < b.cbSize) :
    cbPaste (some b) (some src) n false =
      (n, some (pasteN b (readOut src 0 n))) := by
  rw [cbPaste_some_eq]
  rw [if_neg hn, if_neg (fun hand => absurd hand.2 (by omega)),
    if_neg (by push_neg; exact ⟨by omega, fun _ => by omega⟩),
    if_pos (by simp : ¬(false = true)),
    cbPasteBody_eq_pasteN b src n hw hsz]

theorem cbPaste_upTo_success (b : CircBuffer α) (src : List (Option α))
    (n : Nat) (hn : n ≠ 0) (hfree : b.cbSize - b.dataCount ≠ 0)
    (hw : b.writePtr < b.cbSize) :
    cbPaste (some b) (some src) n true =
      (min n (b.cbSize - b.dataCount),
       some (pasteN b (readOut src 0 (min n (b.cbSize - b.dataCount))))) := by
  rw [cbPaste_some_eq]
  rw [if_neg hn, if_neg (by simp), if_neg (by simp [hfree]),
    if_neg (by simp : ¬¬(true = true)),
    show (if b.cbSize - b.dataCount ≥ n then n else b.cbSize - b.dataCount) =
        min n (b.cbSize - b.dataCount)
      from by rw [Nat.min_def],
    cbPasteBody_eq_pasteN b src (min n (b.cbSize - b.dataCount)) hw (by omega)]

/-! ### Preservation of the invariants by every API call -/

theorem cbRead_some_eq (b : CircBuffer α) :
    cbRead (some b) =
      if b.dataCount = 0 then (none, some b)
      else ((drainStep b).1, some (drainStep b).2) := rfl

theorem cbWrite_some_eq (b : CircBuffer α) (d : α) :
    cbWrite (some b) (some d) =
      if b.dataCount = b.cbSize then (0, some b)
      else (1, some (pasteStep b (some d))) := rfl

theorem readOut_mem (n : Nat) (l : List (Option α)) :
    ∀ p x, x ∈ readOut l p n → ∃ j, j < n ∧ x = l.getD (p + j) none := by
  induction n with
  | zero => intro p x hx; exact absurd hx (List.not_mem_nil x)
  | succ m ih =>
    intro p x hx
    rw [readOut_succ, List.mem_cons] at hx
    rcases hx with hx | hx
    · exact ⟨0, by omega, by rw [hx, Nat.add_zero]⟩
    · obtain ⟨j, hj, hx⟩ := ih (p + 1) x hx
      exact ⟨j + 1, by omega, by rw [hx]; congr 1; omega⟩

theorem applyOp_bounds (b : CircBuffer α) (op : CBOp α) (h : BoundsInv b) :
    ∃ b', applyOp (some b) op = some b' ∧ BoundsInv b' ∧
      b'.cbSize = b.cbSize := by
  have hB : BoundsInv b := h
  obtain ⟨hsz, hlen, hp, hw, hcnt, hrel⟩ := h
  cases op with
  | write d =>
    cases d with
    | none => exact ⟨b, rfl, hB, rfl⟩
    | some d =>
      by_cases hc : b.dataCount = b.cbSize
      · refine ⟨b, ?_, hB, rfl⟩
        show (cbWrite (some b) (some d)).2 = some b
        rw [cbWrite_some_eq, if_pos hc]
      · refine ⟨pasteStep b (some d), ?_,
          pasteStep_bounds b (some d) hB (by omega), rfl⟩
        show (cbWrite (some b) (some d)).2 = some (pasteStep b (some d))
        rw [cbWrite_some_eq, if_neg hc]
  | read =>
    by_cases hc : b.dataCount = 0
    · refine ⟨b, ?_, hB, rfl⟩
      show (cbRead (some b)).2 = some b
      rw [cbRead_some_eq, if_pos hc]
    · refine ⟨(drainStep b).2, ?_, drainStep_bounds b hB (by omega), rfl⟩
      show (cbRead (some b)).2 = some (drainStep b).2
      rw [cbRead_some_eq, if_neg hc]
  | copy dbn n u =>
    by_cases hrej : (dbn = true ∨ n = 0) ∨ (¬u = true ∧ n > b.cbSize) ∨
        (b.dataCount = 0 ∨ (¬u = true ∧ b.dataCount < n))
    · refine ⟨b, ?_, hB, rfl⟩
      show (cbCopy (some b) dbn n u).2.2 = some b
      rw [cbCopy_fail b dbn n u hrej]
    · push_neg at hrej
      obtain ⟨hr1, hr2, hr3⟩ := hrej
      have hdbn : dbn = false := by
        cases dbn
        · rfl
        · exact absurd rfl hr1.1
      subst hdbn
      cases u
      · have hsz2 : n ≤ b.cbSize := by
          have := hr2 (by simp); omega
        have hcnt2 : n ≤ b.dataCount := by
          have := hr3.2 (by simp); omega
        refine ⟨(drainN b n).2, ?_,
          drainN_bounds n b hB hcnt2, (drainN_shape n b).1⟩
        show (cbCopy (some b) false n false).2.2 = some (drainN b n).2
        rw [cbCopy_exact_success b n hr1.2 hsz2 hcnt2 hp]
      · refine ⟨(drainN b (min n b.dataCount)).2, ?_,
          drainN_bounds (min n b.dataCount) b hB (by omega),
          (drainN_shape (min n b.dataCount) b).1⟩
        show (cbCopy (some b) false n true).2.2 =
          some (drainN b (min n b.dataCount)).2
        rw [cbCopy_upTo_success b n hr1.2 hr3.1 hp hcnt]
  | paste src n u =>
    cases src with
    | none => exact ⟨b, rfl, hB, rfl⟩
    | some src =>
      by_cases hrej : n = 0 ∨ (¬u = true ∧ n > b.cbSize) ∨
          (b.cbSize - b.dataCount = 0 ∨
           (¬u = true ∧ b.cbSize - b.dataCount < n))
      · refine ⟨b, ?_, hB, rfl⟩
        show (cbPaste (some b) (some src) n u).2 = some b
        rw [cbPaste_fail b src n u hrej]
      · push_neg at hrej
        obtain ⟨hr1, hr2, hr3⟩ := hrej
        cases u
        · have hsz2 : n ≤ b.cbSize := by
            have := hr2 (by simp); omega
          have hfree2 : n ≤ b.cbSize - b.dataCount := by
            have := hr3.2 (by simp); omega
          refine ⟨pasteN b (readOut src 0 n), ?_,
            pasteN_bounds (readOut src 0 n) b hB
              (by rw [readOut_length]; omega),
            (pasteN_shape (readOut src 0 n) b).1⟩
          show (cbPaste (some b) (some src) n false).2 =
            some (pasteN b (readOut src 0 n))
          rw [cbPaste_exact_success b src n hr1 hsz2 hfree2 hw]
        · refine ⟨pasteN b (readOut src 0 (min n (b.cbSize - b.dataCount))), ?_,
            pasteN_bounds _ b hB (by rw [readOut_length]; omega),
            (pasteN_shape _ b).1⟩
          show (cbPaste (some b) (some src) n true).2 =
            some (pasteN b (readOut src 0 (min n (b.cbSize - b.dataCount))))
          rw [cbPaste_upTo_success b src n hr1 hr3.1 hw]

theorem applyOp_WF (b : CircBuffer α) (op : CBOp α) (h : WF b)
    (hop : GoodOp op) :
    ∃ b', applyOp (some b) op = some b' ∧ WF b' ∧ b'.cbSize = b.cbSize := by
  have hWF : WF b := h
  obtain ⟨⟨hsz, hlen, hp, hw, hcnt, hrel⟩, hOcc⟩ := h
  have hB : BoundsInv b := ⟨hsz, hlen, hp, hw, hcnt, hrel⟩
  cases op with
  | write d =>
    cases d with
    | none => exact ⟨b, rfl, hWF, rfl⟩
    | some d =>
      by_cases hc : b.dataCount = b.cbSize
      · refine ⟨b, ?_, hWF, rfl⟩
        show (cbWrite (some b) (some d)).2 = some b
        rw [cbWrite_some_eq, if_pos hc]
      · refine ⟨pasteStep b (some d), ?_,
          pasteStep_WF b (some d) hWF (by omega) rfl, rfl⟩
        show (cbWrite (some b) (some d)).2 = some (pasteStep b (some d))
        rw [cbWrite_some_eq, if_neg hc]
  | read =>
    by_cases hc : b.dataCount = 0
    · refine ⟨b, ?_, hWF, rfl⟩
      show (cbRead (some b)).2 = some b
      rw [cbRead_some_eq, if_pos hc]
    · refine ⟨(drainStep b).2, ?_, drainStep_WF b hWF (by omega), rfl⟩
      show (cbRead (some b)).2 = some (drainStep b).2
      rw [cbRead_some_eq, if_neg hc]
  | copy dbn n u =>
    by_cases hrej : (dbn = true ∨ n = 0) ∨ (¬u = true ∧ n > b.cbSize) ∨
        (b.dataCount = 0 ∨ (¬u = true ∧ b.dataCount < n))
    · refine ⟨b, ?_, hWF, rfl⟩
      show (cbCopy (some b) dbn n u).2.2 = some b
      rw [cbCopy_fail b dbn n u hrej]
    · push_neg at hrej
      obtain ⟨hr1, hr2, hr3⟩ := hrej
      have hdbn : dbn = false := by
        cases dbn
        · rfl
        · exact absurd rfl hr1.1
      subst hdbn
      cases u
      · have hsz2 : n ≤ b.cbSize := by
          have := hr2 (by simp); omega
        have hcnt2 : n ≤ b.dataCount := by
          have := hr3.2 (by simp); omega
        refine ⟨(drainN b n).2, ?_,
          (drainN_WF n b hWF hcnt2).1, (drainN_shape n b).1⟩
        show (cbCopy (some b) false n false).2.2 = some (drainN b n).2
        rw [cbCopy_exact_success b n hr1.2 hsz2 hcnt2 hp]
      · refine ⟨(drainN b (min n b.dataCount)).2, ?_,
          (drainN_WF (min n b.dataCount) b hWF (by omega)).1,
          (drainN_shape (min n b.dataCount) b).1⟩
        show (cbCopy (some b) false n true).2.2 =
          some (drainN b (min n b.dataCount)).2
        rw [cbCopy_upTo_success b n hr1.2 hr3.1 hp hcnt]
  | paste src n u =>
    cases src with
    | none => exact ⟨b, rfl, hWF, rfl⟩
    | some src =>
      have hgood : ∀ j, j < n → (src.getD j none).isSome = true := hop
      by_cases hrej : n = 0 ∨ (¬u = true ∧ n > b.cbSize) ∨
          (b.cbSize - b.dataCount = 0 ∨
           (¬u = true ∧ b.cbSize - b.dataCount < n))
      · refine ⟨b, ?_, hWF, rfl⟩
        show (cbPaste (some b) (some src) n u).2 = some b
        rw [cbPaste_fail b src n u hrej]
      · push_neg at hrej
        obtain ⟨hr1, hr2, hr3⟩ := hrej
        cases u
        · have hsz2 : n ≤ b.cbSize := by
            have := hr2 (by simp); omega
          have hfree2 : n ≤ b.cbSize - b.dataCount := by
            have := hr3.2 (by simp); omega
          refine ⟨pasteN b (readOut src 0 n), ?_,
            (pasteN_WF (readOut src 0 n) b hWF
              (by rw [readOut_length]; omega) ?_).1,
            (pasteN_shape (readOut src 0 n) b).1⟩
          · show (cbPaste (some b) (some src) n false).2 =
              some (pasteN b (readOut src 0 n))
            rw [cbPaste_exact_success b src n hr1 hsz2 hfree2 hw]
          · intro x hx
            obtain ⟨j, hj, hxj⟩ := readOut_mem n src 0 x hx
            rw [hxj, Nat.zero_add]
            exact hgood j hj
        · refine ⟨pasteN b (readOut src 0 (min n (b.cbSize - b.dataCount))), ?_,
            (pasteN_WF _ b hWF (by rw [readOut_length]; omega) ?_).1,
            (pasteN_shape _ b).1⟩
          · show (cbPaste (some b) (some src) n true).2 =
              some (pasteN b (readOut src 0 (min n (b.cbSize - b.dataCount))))
            rw [cbPaste_upTo_success b src n hr1 hr3.1 hw]
          · intro x hx
            obtain ⟨j, hj, hxj⟩ :=
              readOut_mem (min n (b.cbSize - b.dataCount)) src 0 x hx
            rw [hxj, Nat.zero_add]
            exact hgood j (by omega)

theorem runOps_bounds (ops : List (CBOp α)) :
    ∀ b : CircBuffer α, BoundsInv b →
      ∃ b', runOps (some b) ops = some b' ∧ BoundsInv b' ∧
        b'.cbSize = b.cbSize := by
  induction ops with
  | nil => exact fun b h => ⟨b, rfl, h, rfl⟩
  | cons op ops ih =>
    intro b h
    obtain ⟨b1, h1, h2, h3⟩ := applyOp_bounds b op h
    obtain ⟨b', h4, h5, h6⟩ := ih b1 h2
    refine ⟨b', ?_, h5, h6.trans h3⟩
    show List.foldl applyOp (applyOp (some b) op) ops = some b'
    rw [h1]
    exact h4

theorem runOps_WF (ops : List (CBOp α)) (hops : ∀ op ∈ ops, GoodOp op) :
    ∀ b : CircBuffer α, WF b →
      ∃ b', runOps (some b) ops = some b' ∧ WF b' ∧ b'.cbSize = b.cbSize := by
  induction ops with
  | nil => exact fun b h => ⟨b, rfl, h, rfl⟩
  | cons op ops ih =>
    intro b h
    obtain ⟨b1, h1, h2, h3⟩ := applyOp_WF b op h
      (hops op (List.mem_cons_self op ops))
    obtain ⟨b', h4, h5, h6⟩ :=
      ih (fun o ho => hops o (List.mem_cons_of_mem op ho)) b1 h2
    refine ⟨b', ?_, h5, h6.trans h3⟩
    show List.foldl applyOp (applyOp (some b) op) ops = some b'
    rw [h1]
    exact h4

/-! ### The freshly created buffer -/

theorem createCBuffer_some (c : Nat) (hc : c ≠ 0) :
    createCBuffer α c =
      some ⟨c, List.replicate c none, 0, 0, 0⟩ := by
  unfold createCBuffer
  rw [if_neg hc]

theorem createCBuffer_WF (c : Nat) (hc : 0 < c) :
    WF (⟨c, List.replicate c none, 0, 0, 0⟩ : CircBuffer α) := by
  refine ⟨⟨hc, by simp, hc, hc, by simp, by simp⟩, ?_, ?_⟩
  · intro j hj
    simp at hj
  · intro i hi hj
    dsimp only at hi ⊢
    rw [List.getD_eq_getElem?_getD, List.getElem?_replicate, if_pos hi]
    rfl

theorem createCBuffer_liveList (c : Nat) :
    liveList (⟨c, List.replicate c none, 0, 0, 0⟩ : CircBuffer α) = [] := by
  simp [liveList]

/-! ### Released elements on deletion -/

theorem range_map_getD (l : List (Option α)) :
    (List.range l.length).map (fun i => l.getD i none) = l := by
  refine List.ext_getElem (by simp) ?_
  intro i h1 h2
  simp only [List.getElem_map, List.getElem_range,
    List.getD_eq_getElem?_getD, List.getElem?_eq_getElem h2, Option.getD_some]

theorem filterMap_set_none_perm (L : List (Option α)) :
    ∀ (i : Nat) (v : α), L.getD i none = some v →
      (L.filterMap id).Perm (v :: ((L.set i none).filterMap id)) := by
  induction L with
  | nil =>
    intro i v hv
    simp [List.getD] at hv
  | cons x t ih =>
    intro i v hv
    cases i with
    | zero =>
      rw [List.getD_cons_zero] at hv
      subst hv
      rw [List.set_cons_zero]
      simp only [List.filterMap_cons, id]
      exact List.Perm.refl _
    | succ m =>
      rw [List.getD_cons_succ] at hv
      rw [List.set_cons_succ]
      cases x with
      | none =>
        simp only [List.filterMap_cons, id]
        exact ih m v hv
      | some u =>
        simp only [List.filterMap_cons, id]
        have hstep1 : (u :: t.filterMap id).Perm
            (u :: v :: (t.set m none).filterMap id) := (ih m v hv).cons u
        have hstep2 : (u :: v :: (t.set m none).filterMap id).Perm
            (v :: u :: (t.set m none).filterMap id) :=
          List.Perm.swap v u ((t.set m none).filterMap id)
        exact hstep1.trans hstep2

theorem filterMap_length_of_isSome (L : List (Option α))
    (h : ∀ x ∈ L, x.isSome = true) : (L.filterMap id).length = L.length := by
  induction L with
  | nil => rfl
  | cons x t ih =>
    cases x with
    | none => exact absurd (h none (List.mem_cons_self _ _)) (by simp)
    | some u =>
      simp only [List.filterMap_cons, id, List.length_cons]
      rw [ih (fun y hy => h y (List.mem_cons_of_mem _ hy))]

theorem liveList_all_isSome (b : CircBuffer α) (h : WF b) :
    ∀ x ∈ liveList b, x.isSome = true := by
  intro x hx
  unfold liveList at hx
  rw [List.mem_map] at hx
  obtain ⟨j, hj, hxj⟩ := hx
  rw [List.mem_range] at hj
  rw [← hxj]
  exact h.2.1 j hj

theorem dataArea_filterMap_perm (b : CircBuffer α) (h : WF b) :
    (b.dataArea.filterMap id).Perm ((liveList b).filterMap id) := by
  generalize hn : b.dataCount = n
  induction n generalizing b with
  | zero =>
    have hall : ∀ x ∈ b.dataArea.filterMap id, False := by
      intro x hx
      rw [List.mem_filterMap] at hx
      obtain ⟨o, ho, hox⟩ := hx
      obtain ⟨i, hi, hoi⟩ := List.getElem_of_mem ho
      have hnone := h.2.2 i (by rw [← h.1.2.1]; exact hi)
        (fun j hj => absurd hj (by omega))
      rw [List.getD_eq_getElem?_getD, List.getElem?_eq_getElem hi,
        Option.getD_some] at hnone
      rw [hoi] at hnone
      rw [hnone] at hox
      exact Option.noConfusion hox
    have hempty : b.dataArea.filterMap id = [] := by
      cases hfm : b.dataArea.filterMap id with
      | nil => rfl
      | cons y ys => exact absurd (hfm ▸ List.mem_cons_self y ys) (hall y)
    rw [hempty]
    unfold liveList
    rw [hn]
    exact List.Perm.refl _
  | succ m ih =>
    have hc : 0 < b.dataCount := by omega
    have hWF1 := drainStep_WF b h hc
    have hcons := liveList_eq_cons b h.1 hc
    have hiss := drainStep_fst_isSome b h hc
    rw [drainStep_fst] at hiss
    obtain ⟨v, hv⟩ := Option.isSome_iff_exists.mp hiss
    have hperm1 := filterMap_set_none_perm b.dataArea b.readPtr v hv
    have ihapp := ih (drainStep b).2 hWF1
      (by rw [drainStep_dataCount, hn]; omega)
    have harea : (drainStep b).2.dataArea = b.dataArea.set b.readPtr none :=
      rfl
    rw [harea] at ihapp
    have hmain : (b.dataArea.filterMap id).Perm
        (v :: (liveList (drainStep b).2).filterMap id) :=
      hperm1.trans (ihapp.cons v)
    rw [hcons, hv]
    simp only [List.filterMap_cons, id]
    exact hmain

/-! ### Further helper lemmas for the claims -/

theorem liveList_length (b : CircBuffer α) :
    (liveList b).length = b.dataCount := by
  simp [liveList]

theorem readOut_eq_drop_take (m : Nat) :
    ∀ (l : List (Option α)) (q : Nat), q + m ≤ l.length →
      readOut l q m = (l.drop q).take m := by
  induction m with
  | zero => intro l q h; simp
  | succ k ih =>
    intro l q h
    have hq : q < l.length := by omega
    rw [readOut_succ, ih l (q + 1) (by omega),
      List.drop_eq_getElem_cons hq, List.take_succ_cons,
      List.getD_eq_getElem?_getD, List.getElem?_eq_getElem hq,
      Option.getD_some]

theorem cbCopy_zero (b : CircBuffer α) (dbn : Bool) (n : Nat) (u : Bool)
    (h : (cbCopy (some b) dbn n u).1 = 0) :
    cbCopy (some b) dbn n u = (0, [], some b) := by
  by_cases hrej : (dbn = true ∨ n = 0) ∨ (¬u = true ∧ n > b.cbSize) ∨
      (b.dataCount = 0 ∨ (¬u = true ∧ b.dataCount < n))
  · exact cbCopy_fail b dbn n u hrej
  · exfalso
    push_neg at hrej
    obtain ⟨hr1, hr2, hr3⟩ := hrej
    rw [cbCopy_some_eq, if_neg (show ¬(dbn = true ∨ n = 0) from by tauto),
      if_neg (show ¬(¬u = true ∧ n > b.cbSize) from by
        rintro ⟨hu, hgt⟩
        have := hr2 hu
        omega),
      if_neg (show ¬(b.dataCount = 0 ∨ (¬u = true ∧ b.dataCount < n)) from by
        rintro (hc0 | ⟨hu, hlt⟩)
        · exact hr3.1 hc0
        · have := hr3.2 hu
          omega)] at h
    rw [cbCopyBody_fst] at h
    by_cases hu : ¬u = true
    · rw [if_pos hu] at h
      exact hr1.2 h
    · rw [if_neg hu] at h
      have := hr1.2
      have := hr3.1
      split_ifs at h <;> omega
  
theorem cbPaste_zero (b : CircBuffer α) (src : List (Option α)) (n : Nat)
    (u : Bool) (h : (cbPaste (some b) (some src) n u).1 = 0) :
    cbPaste (some b) (some src) n u = (0, some b) := by
  by_cases hrej : n = 0 ∨ (¬u = true ∧ n > b.cbSize) ∨
      (b.cbSize - b.dataCount = 0 ∨ (¬u = true ∧ b.cbSize - b.dataCount < n))
  · exact cbPaste_fail b src n u hrej
  · exfalso
    push_neg at hrej
    obtain ⟨hr1, hr2, hr3⟩ := hrej
    rw [cbPaste_some_eq, if_neg hr1,
      if_neg (show ¬(¬u = true ∧ n > b.cbSize) from by
        rintro ⟨hu, hgt⟩
        have := hr2 hu
        omega),
      if_neg (show ¬(b.cbSize - b.dataCount = 0 ∨
          (¬u = true ∧ b.cbSize - b.dataCount < n)) from by
        rintro (hc0 | ⟨hu, hlt⟩)
        · exact hr3.1 hc0
        · have := hr3.2 hu
          omega)] at h
    rw [cbPasteBody_fst] at h
    by_cases hu : ¬u = true
    · rw [if_pos hu] at h
      exact hr1 h
    · rw [if_neg hu] at h
      have := hr3.1
      split_ifs at h <;> omega

theorem cbCopy_upTo_fst (b : CircBuffer α) (r : Nat) (hr : r ≠ 0) :
    (cbCopy (some b) false r true).1 = min r b.dataCount ∧
    ∃ b', (cbCopy (some b) false r true).2.2 = some b' ∧
      b'.dataCount = b.dataCount - min r b.dataCount ∧
      b'.cbSize = b.cbSize := by
  by_cases hc : b.dataCount = 0
  · rw [cbCopy_fail b false r true (by tauto)]
    exact ⟨by omega, b, rfl, by omega, rfl⟩
  · rw [cbCopy_some_eq, if_neg (by simp [hr]), if_neg (by simp),
      if_neg (by simp [hc]), if_neg (by simp : ¬¬(true = true)),
      show (if b.dataCount ≥ r then r else b.dataCount) = min r b.dataCount
        from by rw [Nat.min_def]]
    refine ⟨cbCopyBody_fst b (min r b.dataCount),
      (cbCopyBody b (min r b.dataCount)).2.2, rfl,
      cbCopyBody_count b (min r b.dataCount), ?_⟩
    unfold cbCopyBody
    split <;> rfl

theorem cbPaste_upTo_fst (b : CircBuffer α) (src : List (Option α)) (r : Nat)
    (hr : r ≠ 0) :
    (cbPaste (some b) (some src) r true).1 =
      min r (b.cbSize - b.dataCount) ∧
    ∃ b', (cbPaste (some b) (some src) r true).2 = some b' ∧
      b'.dataCount = b.dataCount + min r (b.cbSize - b.dataCount) ∧
      b'.cbSize = b.cbSize := by
  by_cases hc : b.cbSize - b.dataCount = 0
  · rw [cbPaste_fail b src r true (by tauto)]
    exact ⟨by omega, b, rfl, by omega, rfl⟩
  · rw [cbPaste_some_eq, if_neg hr, if_neg (by simp),
      if_neg (by simp [hc]), if_neg (by simp : ¬¬(true = true)),
      show (if b.cbSize - b.dataCount ≥ r then r
            else b.cbSize - b.dataCount) = min r (b.cbSize - b.dataCount)
        from by rw [Nat.min_def]]
    refine ⟨cbPasteBody_fst b src (min r (b.cbSize - b.dataCount)),
      (cbPasteBody b src (min r (b.cbSize - b.dataCount))).2, rfl,
      cbPasteBody_count b src (min r (b.cbSize - b.dataCount)), ?_⟩
    unfold cbPasteBody
    split <;> rfl

/-! ### Claim theorems -/

/-- C4: strict-mode capacity rejection.  For a requested amount `r` larger
than the capacity, `cbCopy` and `cbPaste` in exact mode return 0 and change
nothing, whatever the occupancy; best-effort mode has no such rejection and
caps at what is currently available (`dataCount` respectively
`cbSize - dataCount`). -/
theorem C4_capacity_rejection {α : Type} (b : CircBuffer α) (dbn : Bool)
    (src : List (Option α)) (r : Nat) (hr : b.cbSize < r)
    (hcnt : b.dataCount ≤ b.cbSize) :
    cbCopy (some b) dbn r false = (0, [], some b) ∧
    cbPaste (some b) (some src) r false = (0, some b) ∧
    (0 < b.dataCount → (cbCopy (some b) false r true).1 = b.dataCount) ∧
    (b.dataCount < b.cbSize →
      (cbPaste (some b) (some src) r true).1 = b.cbSize - b.dataCount) := by
  refine ⟨cbCopy_fail b dbn r false (Or.inr (Or.inl ⟨by simp, hr⟩)),
    cbPaste_fail b src r false (Or.inr (Or.inl ⟨by simp, hr⟩)), ?_, ?_⟩
  · intro h
    rw [(cbCopy_upTo_fst b r (by omega)).1]
    omega
  · intro h
    rw [(cbPaste_upTo_fst b src r (by omega)).1]
    omega

/-- C5: best-effort capping.  With a non-null block and `r > 0`, best-effort
`cbCopy` moves exactly `min r dataCount` entries (0 on an empty buffer,
emptying the buffer when `r ≥ dataCount`) and best-effort `cbPaste` moves
exactly `min r (cbSize - dataCount)` entries (0 on a full buffer), the count
moving by the returned amount. -/
theorem C5_best_effort_capping {α : Type} (b : CircBuffer α) (r : Nat)
    (src : List (Option α)) (hr : 0 < r) (hcnt : b.dataCount ≤ b.cbSize) :
    (cbCopy (some b) false r true).1 = min r b.dataCount ∧
    (∃ b', (cbCopy (some b) false r true).2.2 = some b' ∧
      b'.dataCount = b.dataCount - (cbCopy (some b) false r true).1) ∧
    (b.dataCount = 0 → cbCopy (some b) false r true = (0, [], some b)) ∧
    (b.dataCount ≤ r → ∃ b', (cbCopy (some b) false r true).2.2 = some b' ∧
      b'.dataCount = 0) ∧
    (cbPaste (some b) (some src) r true).1 = min r (b.cbSize - b.dataCount) ∧
    (∃ b', (cbPaste (some b) (some src) r true).2 = some b' ∧
      b'.dataCount = b.dataCount + (cbPaste (some b) (some src) r true).1) ∧
    (b.dataCount = b.cbSize →
      cbPaste (some b) (some src) r true = (0, some b)) := by
  obtain ⟨hcfst, bc, hbc1, hbc2, hbc3⟩ := cbCopy_upTo_fst b r (by omega)
  obtain ⟨hpfst, bp, hbp1, hbp2, hbp3⟩ := cbPaste_upTo_fst b src r (by omega)
  refine ⟨hcfst, ⟨bc, hbc1, by rw [hcfst]; exact hbc2⟩, ?_, ?_, hpfst,
    ⟨bp, hbp1, by rw [hpfst]; exact hbp2⟩, ?_⟩
  · intro h
    exact cbCopy_fail b false r true (by tauto)
  · intro h
    exact ⟨bc, hbc1, by omega⟩
  · intro h
    exact cbPaste_fail b src r true (Or.inr (Or.inr (Or.inl (by omega))))

/-- C7: cursor and count bounds.  In every state reachable from
`createCBuffer c` (any operations, any arguments), `dataCount ≤ c` and both
cursors are valid indices below `c`; the single-step advance `wrapSucc`
increments by one and wraps to 0 exactly upon reaching `c`. -/
theorem C7_cursor_count_bounds {α : Type} (c : Nat) (ops : List (CBOp α))
    (b : CircBuffer α) (hc : 0 < c)
    (hrun : runOps (createCBuffer α c) ops = some b) :
    b.cbSize = c ∧ b.dataCount ≤ c ∧ b.readPtr < c ∧ b.writePtr < c ∧
    (∀ i, i + 1 < c → wrapSucc c i = i + 1) ∧ wrapSucc c (c - 1) = 0 := by
  rw [createCBuffer_some c (by omega)] at hrun
  obtain ⟨b', h1, h2, h3⟩ := runOps_bounds ops _ (createCBuffer_WF c hc).1
  rw [hrun] at h1
  injection h1 with h1
  rw [h1]
  obtain ⟨hsz, hlen, hp, hw, hcnt, hrel⟩ := h2
  have hcsz : b'.cbSize = c := h3
  refine ⟨hcsz, by omega, by omega, by omega, ?_, ?_⟩
  · intro i hi
    unfold wrapSucc
    rw [if_neg (by omega)]
  · unfold wrapSucc
    rw [if_pos (by omega)]

/-- C9: destruction ownership.  With the release flag set, `deleteCBuffer`
passes to `free` exactly the non-NULL slot contents, which on a well-formed
buffer are a permutation of the live elements (each released exactly once,
nothing else); with the flag clear it releases no element, and a NULL buffer
is a safe no-op. -/
theorem C9_destruction_ownership {α : Type} (b : CircBuffer α) (hWF : WF b) :
    ((deleteCBuffer (some b) true).filterMap id).Perm
      ((liveList b).filterMap id) ∧
    ((liveList b).filterMap id).length = b.dataCount ∧
    (∀ x ∈ liveList b, x.isSome = true) ∧
    deleteCBuffer (some b) false = [] ∧
    (∀ f : Bool, deleteCBuffer (none : Option (CircBuffer α)) f = []) := by
  refine ⟨?_, ?_, liveList_all_isSome b hWF, rfl, fun f => rfl⟩
  · have hdel : deleteCBuffer (some b) true = b.dataArea := by
      show (if (true : Bool) then
        (List.range b.cbSize).map (fun i => b.dataArea.getD i none) else [])
        = b.dataArea
      rw [if_pos rfl, ← hWF.1.2.1, range_map_getD]
    rw [hdel]
    exact dataArea_filterMap_perm b hWF
  · rw [filterMap_length_of_isSome _ (liveList_all_isSome b hWF),
      liveList_length]

/-- C10: implicit cursor-count relation.  In every state reachable from
`createCBuffer c` through the four mutating operations, the write cursor
equals `(readPtr + dataCount) % cbSize`. -/
theorem C10_cursor_relation {α : Type} (c : Nat) (ops : List (CBOp α))
    (b : CircBuffer α) (hc : 0 < c)
    (hrun : runOps (createCBuffer α c) ops = some b) :
    b.writePtr = (b.readPtr + b.dataCount) % b.cbSize := by
  rw [createCBuffer_some c (by omega)] at hrun
  obtain ⟨b', h1, h2, h3⟩ := runOps_bounds ops _ (createCBuffer_WF c hc).1
  rw [hrun] at h1
  injection h1 with h1
  rw [h1]
  exact h2.2.2.2.2.2

/-- C1: FIFO order.  Writing a sequence `es` of (non-NULL) elements into a
fresh buffer of capacity at least `es.length` with `cbWrite` and then
performing `es.length` `cbRead` calls returns `es` in exactly that order.
Moreover, on any well-formed buffer, iterated reads return the live window
oldest-first and a successful write appends to the live window: the i-th
live element written is the i-th read, irrespective of cursor wraps. -/
theorem C1_fifo_order {α : Type} (c : Nat) (es : List α) (hc : 0 < c)
    (hlen : es.length ≤ c) :
    (readList ((writeList (createCBuffer α c) es).2) es.length).1 =
      es.map some ∧
    (∀ b : CircBuffer α, WF b → ∀ n, n ≤ b.dataCount →
      (readList (some b) n).1 = (liveList b).take n) ∧
    (∀ b : CircBuffer α, WF b → ∀ d : α, b.dataCount < b.cbSize →
      ∃ b', cbWrite (some b) (some d) = (1, some b') ∧
        liveList b' = liveList b ++ [some d]) := by
  refine ⟨?_, ?_, ?_⟩
  · rw [createCBuffer_some (α := α) c (by omega)]
    have hWF0 := createCBuffer_WF (α := α) c hc
    have hcnt0 : (⟨c, List.replicate c none, 0, 0, 0⟩ :
        CircBuffer α).dataCount + es.length ≤
        (⟨c, List.replicate c none, 0, 0, 0⟩ : CircBuffer α).cbSize := by
      dsimp only
      omega
    rw [writeList_eq_pasteN es _ hcnt0]
    obtain ⟨hWF1, hlive1⟩ := pasteN_WF (es.map some) _ hWF0
      (by dsimp only; rw [List.length_map]; omega)
      (by intro x hx
          rw [List.mem_map] at hx
          obtain ⟨d, hd, hdx⟩ := hx
          rw [← hdx]
          rfl)
    have hcnt1 : (pasteN (⟨c, List.replicate c none, 0, 0, 0⟩ :
        CircBuffer α) (es.map some)).dataCount = es.length := by
      rw [(pasteN_shape (es.map some) _).2.2.1]
      dsimp only
      rw [List.length_map]
      omega
    rw [show (List.replicate es.length 1,
        some (pasteN (⟨c, List.replicate c none, 0, 0, 0⟩ : CircBuffer α)
          (es.map some))).2 =
      some (pasteN (⟨c, List.replicate c none, 0, 0, 0⟩ : CircBuffer α)
        (es.map some)) from rfl]
    rw [readList_eq_drainN es.length _ (by rw [hcnt1])]
    rw [show ((drainN (pasteN (⟨c, List.replicate c none, 0, 0, 0⟩ :
        CircBuffer α) (es.map some)) es.length).1,
        some (drainN (pasteN (⟨c, List.replicate c none, 0, 0, 0⟩ :
        CircBuffer α) (es.map some)) es.length).2).1 =
      (drainN (pasteN (⟨c, List.replicate c none, 0, 0, 0⟩ : CircBuffer α)
        (es.map some)) es.length).1 from rfl]
    rw [(drainN_WF es.length _ hWF1 (by rw [hcnt1])).2.1]
    rw [hlive1, createCBuffer_liveList (α := α) c, List.nil_append]
    rw [show es.length = (es.map some).length from
      (List.length_map es some).symm, List.take_length]
  · intro b hWF n hn
    rw [readList_eq_drainN n b hn]
    exact (drainN_WF n b hWF hn).2.1
  · intro b hWF d hcb
    refine ⟨pasteStep b (some d), ?_, liveList_pasteStep b (some d) hWF.1 hcb⟩
    rw [cbWrite_some_eq, if_neg (by omega)]

/-- C2: atomic rejection on failure.  Whenever `cbRead` (on a well-formed
buffer), `cbWrite`, `cbCopy` or `cbPaste` reports failure (NULL result, flag
0, or 0 entries moved), the buffer is left exactly as it was; in particular
exact-mode `cbPaste` with a request exceeding the free capacity returns 0
and mutates nothing. -/
theorem C2_atomic_failure {α : Type} (b : CircBuffer α) (d : Option α)
    (dbn : Bool) (r : Nat) (u : Bool) (src : List (Option α)) (hWF : WF b) :
    ((cbRead (some b)).1 = none → cbRead (some b) = (none, some b)) ∧
    ((cbWrite (some b) d).1 = 0 → (cbWrite (some b) d).2 = some b) ∧
    ((cbCopy (some b) dbn r u).1 = 0 →
      cbCopy (some b) dbn r u = (0, [], some b)) ∧
    ((cbPaste (some b) (some src) r u).1 = 0 →
      cbPaste (some b) (some src) r u = (0, some b)) ∧
    (b.cbSize - b.dataCount < r →
      cbPaste (some b) (some src) r false = (0, some b)) := by
  refine ⟨?_, ?_, cbCopy_zero b dbn r u, cbPaste_zero b src r u, ?_⟩
  · intro h
    by_cases hc : b.dataCount = 0
    · rw [cbRead_some_eq, if_pos hc]
    · exfalso
      rw [cbRead_some_eq, if_neg hc] at h
      have hiss := drainStep_fst_isSome b hWF (by omega)
      rw [show (((drainStep b).1, some (drainStep b).2) :
          Option α × Option (CircBuffer α)).1 = (drainStep b).1 from rfl] at h
      rw [h] at hiss
      exact Bool.noConfusion hiss
  · intro h
    cases d with
    | none => rfl
    | some d =>
      by_cases hfull : b.dataCount = b.cbSize
      · rw [cbWrite_some_eq, if_pos hfull]
      · exfalso
        rw [cbWrite_some_eq, if_neg hfull] at h
        exact Nat.noConfusion h
  · intro h
    refine cbPaste_fail b src r false ?_
    by_cases hle : r ≤ b.cbSize
    · exact Or.inr (Or.inr (Or.inr ⟨by simp, by omega⟩))
    · exact Or.inr (Or.inl ⟨by simp, by omega⟩)

/-- C6: single-operation failure conditions.  `cbWrite` returns 0 exactly
when the buffer is NULL, the element is NULL, or the buffer is full, and
otherwise stores the element at the write cursor and returns 1; `cbRead`
returns NULL exactly when the buffer is NULL or empty, and otherwise returns
the oldest live element; failing calls leave the count unchanged. -/
theorem C6_single_op_failure_iff {α : Type} (b : CircBuffer α) (d : α)
    (hWF : WF b) :
    ((cbWrite (some b) (some d)).1 = 0 ↔ b.dataCount = b.cbSize) ∧
    cbWrite (some b) none = (0, some b) ∧
    (∀ d' : Option α, cbWrite none d' = (0, none)) ∧
    (b.dataCount = b.cbSize → cbWrite (some b) (some d) = (0, some b)) ∧
    (b.dataCount ≠ b.cbSize →
      cbWrite (some b) (some d) = (1, some (pasteStep b (some d)))) ∧
    ((cbRead (some b)).1 = none ↔ b.dataCount = 0) ∧
    cbRead (none : Option (CircBuffer α)) = (none, none) ∧
    (b.dataCount = 0 → cbRead (some b) = (none, some b)) ∧
    (0 < b.dataCount →
      (cbRead (some b)).1 = (liveList b).getD 0 none ∧
      ((cbRead (some b)).1).isSome = true) := by
  refine ⟨?_, rfl, fun d' => rfl, ?_, ?_, ?_, rfl, ?_, ?_⟩
  · constructor
    · intro h
      by_cases hfull : b.dataCount = b.cbSize
      · exact hfull
      · exfalso
        rw [cbWrite_some_eq, if_neg hfull] at h
        exact Nat.noConfusion h
    · intro hfull
      rw [cbWrite_some_eq, if_pos hfull]
  · intro hfull
    rw [cbWrite_some_eq, if_pos hfull]
  · intro hfull
    rw [cbWrite_some_eq, if_neg hfull]
  · constructor
    · intro h
      by_cases hc : b.dataCount = 0
      · exact hc
      · exfalso
        rw [cbRead_some_eq, if_neg hc] at h
        have hiss := drainStep_fst_isSome b hWF (by omega)
        rw [show (((drainStep b).1, some (drainStep b).2) :
            Option α × Option (CircBuffer α)).1 = (drainStep b).1 from rfl]
          at h
        rw [h] at hiss
        exact Bool.noConfusion hiss
    · intro hc
      rw [cbRead_some_eq, if_pos hc]
  · intro hc
    rw [cbRead_some_eq, if_pos hc]
  · intro hc
    have hcons := liveList_eq_cons b hWF.1 hc
    have hiss := drainStep_fst_isSome b hWF hc
    constructor
    · rw [cbRead_some_eq, if_neg (by omega), hcons, List.getD_cons_zero]
      rfl
    · rw [cbRead_some_eq, if_neg (by omega)]
      exact hiss

/-- C3 is refuted as stated: from a fresh buffer of capacity 1, the single
operation `cbPaste` with input block `[NULL]` in exact mode reaches a state
with `dataCount = 1` whose only — occupied — slot holds the NULL sentinel,
because `cbPaste` copies caller-supplied entries without checking them. -/
theorem C3_occupancy_counterexample :
    runOps (createCBuffer Nat 1) [CBOp.paste (some [none]) 1 false] =
      some ⟨1, [none], 0, 0, 1⟩ ∧
    ¬OccInv (⟨1, [none], 0, 0, 1⟩ : CircBuffer Nat) ∧
    (⟨1, [none], 0, 0, 1⟩ : CircBuffer Nat).dataCount = 1 ∧
    ((⟨1, [none], 0, 0, 1⟩ : CircBuffer Nat).dataArea.filterMap id).length =
      0 :=
  ⟨by decide, by decide, rfl, rfl⟩

/-- C3 (amended): restricted to operation sequences whose `cbPaste` calls
supply blocks with non-NULL entries for the requested amount (`GoodOp`),
every state reachable from creation satisfies the occupancy invariant: the
`dataCount` live-window slots hold non-NULL entries, every other slot holds
the NULL sentinel (reads and drains clear vacated slots), and exactly
`dataCount` slots hold live entries. -/
theorem C3_occupancy_invariant {α : Type} (c : Nat) (ops : List (CBOp α))
    (b : CircBuffer α) (hc : 0 < c) (hgood : ∀ op ∈ ops, GoodOp op)
    (hrun : runOps (createCBuffer α c) ops = some b) :
    OccInv b ∧ (b.dataArea.filterMap id).length = b.dataCount := by
  rw [createCBuffer_some c (by omega)] at hrun
  obtain ⟨b', h1, h2, h3⟩ := runOps_WF ops hgood _ (createCBuffer_WF c hc)
  rw [hrun] at h1
  injection h1 with h1
  rw [h1]
  refine ⟨h2.2, ?_⟩
  have hperm := dataArea_filterMap_perm b' h2
  rw [hperm.length_eq,
    filterMap_length_of_isSome _ (liveList_all_isSome b' h2), liveList_length]

/-- C8: the bulk operations refine iterated single operations.  Whenever
`cbCopy` (with a non-null output block) moves `n > 0` entries, its output and
final state are exactly those of `n` successive `cbRead` calls; whenever
`cbPaste` with non-NULL input elements moves `n > 0` entries, its final state
is that of writing the first `n` input elements one-by-one with `cbWrite`
(all succeeding) — the tail/head split copy is not observable. -/
theorem C8_bulk_equals_iterated {α : Type} (b : CircBuffer α) (r n : Nat)
    (u : Bool) (ds : List α) (out : List (Option α))
    (s' : Option (CircBuffer α)) (hB : BoundsInv b) :
    (cbCopy (some b) false r u = (n, out, s') → 0 < n →
      readList (some b) n = (out, s')) ∧
    (r ≤ ds.length → (cbPaste (some b) (some (ds.map some)) r u).1 = n →
      0 < n →
      writeList (some b) (ds.take n) =
        (List.replicate n 1,
         (cbPaste (some b) (some (ds.map some)) r u).2)) := by
  obtain ⟨hB1, hB2, hp, hw, hcnt, hrel⟩ := hB
  constructor
  · intro h hn
    by_cases hrej : (false = true ∨ r = 0) ∨ (¬u = true ∧ r > b.cbSize) ∨
        (b.dataCount = 0 ∨ (¬u = true ∧ b.dataCount < r))
    · exfalso
      rw [cbCopy_fail b false r u hrej] at h
      have h0 : (0 : Nat) = n := congrArg Prod.fst h
      omega
    · push_neg at hrej
      obtain ⟨hr1, hr2, hr3⟩ := hrej
      cases u
      · have hsz2 : r ≤ b.cbSize := by
          have := hr2 (by simp); omega
        have hcnt2 : r ≤ b.dataCount := by
          have := hr3.2 (by simp); omega
        rw [cbCopy_exact_success b r hr1.2 hsz2 hcnt2 hp] at h
        have h1 : r = n := congrArg Prod.fst h
        have h2 : (drainN b r).1 = out := congrArg (fun q => q.2.1) h
        have h3 : some (drainN b r).2 = s' := congrArg (fun q => q.2.2) h
        subst h1
        rw [readList_eq_drainN r b hcnt2, h2, h3]
      · rw [cbCopy_upTo_success b r hr1.2 hr3.1 hp hcnt] at h
        have h1 : min r b.dataCount = n := congrArg Prod.fst h
        have h2 : (drainN b (min r b.dataCount)).1 = out :=
          congrArg (fun q => q.2.1) h
        have h3 : some (drainN b (min r b.dataCount)).2 = s' :=
          congrArg (fun q => q.2.2) h
        rw [← h1, readList_eq_drainN (min r b.dataCount) b (by omega),
          h2, h3]
  · intro hlen h hn
    by_cases hrej : r = 0 ∨ (¬u = true ∧ r > b.cbSize) ∨
        (b.cbSize - b.dataCount = 0 ∨
         (¬u = true ∧ b.cbSize - b.dataCount < r))
    · exfalso
      rw [cbPaste_fail b (ds.map some) r u hrej] at h
      have h0 : (0 : Nat) = n := h
      omega
    · push_neg at hrej
      obtain ⟨hr1, hr2, hr3⟩ := hrej
      cases u
      · have hsz2 : r ≤ b.cbSize := by
          have := hr2 (by simp); omega
        have hfree2 : r ≤ b.cbSize - b.dataCount := by
          have := hr3.2 (by simp); omega
        rw [cbPaste_exact_success b (ds.map some) r hr1 hsz2 hfree2 hw]
          at h ⊢
        have h1 : r = n := h
        subst h1
        have hro : readOut (ds.map some) 0 r = (ds.take r).map some := by
          rw [readOut_eq_drop_take r (ds.map some) 0
            (by rw [List.length_map]; omega), List.drop_zero, List.map_take]
        rw [show ((r : Nat),
            some (pasteN b (readOut (ds.map some) 0 r))).2 =
          some (pasteN b (readOut (ds.map some) 0 r)) from rfl, hro]
        rw [writeList_eq_pasteN (ds.take r) b
          (by rw [List.length_take]; omega)]
        rw [show (ds.take r).length = r from by rw [List.length_take]; omega]
      · rw [cbPaste_upTo_success b (ds.map some) r hr1 hr3.1 hw] at h ⊢
        have h1 : min r (b.cbSize - b.dataCount) = n := h
        have hmr : min r (b.cbSize - b.dataCount) ≤ r := by omega
        have hmf : min r (b.cbSize - b.dataCount) ≤
            b.cbSize - b.dataCount := by omega
        rw [← h1]
        have hro : readOut (ds.map some) 0 (min r (b.cbSize - b.dataCount)) =
            (ds.take (min r (b.cbSize - b.dataCount))).map some := by
          rw [readOut_eq_drop_take (min r (b.cbSize - b.dataCount))
            (ds.map some) 0 (by rw [List.length_map]; omega),
            List.drop_zero, List.map_take]
        rw [show ((min r (b.cbSize - b.dataCount) : Nat),
            some (pasteN b (readOut (ds.map some) 0
              (min r (b.cbSize - b.dataCount))))).2 =
          some (pasteN b (readOut (ds.map some) 0
            (min r (b.cbSize - b.dataCount)))) from rfl, hro]
        rw [writeList_eq_pasteN (ds.take (min r (b.cbSize - b.dataCount))) b
          (by rw [List.length_take]; omega)]
        rw [show (ds.take (min r (b.cbSize - b.dataCount))).length =
          min r (b.cbSize - b.dataCount) from by rw [List.length_take]; omega]

/-! ### Concrete instances used by the witnesses -/

def bW : CircBuffer Nat := ⟨3, [some 5, some 7, none], 0, 2, 2⟩

def bWread : CircBuffer Nat := ⟨3, [none, some 7, none], 1, 2, 1⟩

def opsW : List (CBOp Nat) :=
  [CBOp.write (some 4), CBOp.paste (some [some 6]) 1 false, CBOp.read]

def bRunW : CircBuffer Nat := ⟨2, [none, some 6], 1, 0, 1⟩

def opsW7 : List (CBOp Nat) := [CBOp.write (some 1)]

def bRunW7 : CircBuffer Nat := ⟨2, [some 1, none], 0, 1, 1⟩

/-- C1 witness at capacity 3 and elements `[10, 20]`. -/
theorem C1_fifo_order_witness :
    0 < 3 ∧ ([10, 20] : List Nat).length ≤ 3 ∧
    (readList ((writeList (createCBuffer Nat 3) [10, 20]).2)
      ([10, 20] : List Nat).length).1 = ([10, 20] : List Nat).map some :=
  ⟨by decide, by decide,
   (C1_fifo_order 3 [10, 20] (by decide) (by decide)).1⟩

/-- C2 witness: exact-mode `cbPaste` asking for more than the free capacity
of a concrete well-formed buffer is an unchanged-state rejection. -/
theorem C2_atomic_failure_witness :
    WF bW ∧ bW.cbSize - bW.dataCount < 5 ∧
    cbPaste (some bW) (some [some 9]) 5 false = (0, some bW) :=
  ⟨by decide, by decide,
   (C2_atomic_failure bW none false 5 false [some 9] (by decide)).2.2.2.2
     (by decide)⟩

/-- C3 (amended) witness on a concrete three-operation run. -/
theorem C3_occupancy_invariant_witness :
    0 < 2 ∧ (∀ op ∈ opsW, GoodOp op) ∧
    runOps (createCBuffer Nat 2) opsW = some bRunW ∧
    (OccInv bRunW ∧ (bRunW.dataArea.filterMap id).length = bRunW.dataCount) :=
  ⟨by decide, by decide, by decide,
   C3_occupancy_invariant 2 opsW bRunW (by decide) (by decide) (by decide)⟩

/-- C4 witness: request 5 on a capacity-3 buffer. -/
theorem C4_capacity_rejection_witness :
    bW.cbSize < 5 ∧ bW.dataCount ≤ bW.cbSize ∧
    cbCopy (some bW) false 5 false = (0, [], some bW) :=
  ⟨by decide, by decide,
   (C4_capacity_rejection bW false [some 1] 5 (by decide) (by decide)).1⟩

/-- C5 witness: best-effort copy of up to 5 entries from a buffer holding
2. -/
theorem C5_best_effort_capping_witness :
    0 < 5 ∧ bW.dataCount ≤ bW.cbSize ∧
    (cbCopy (some bW) false 5 true).1 = min 5 bW.dataCount :=
  ⟨by decide, by decide,
   (C5_best_effort_capping bW 5 [some 1] (by decide) (by decide)).1⟩

/-- C6 witness: the raises-iff for `cbWrite` on a concrete buffer. -/
theorem C6_single_op_failure_iff_witness :
    WF bW ∧ ((cbWrite (some bW) (some 9)).1 = 0 ↔
      bW.dataCount = bW.cbSize) :=
  ⟨by decide, (C6_single_op_failure_iff bW 9 (by decide)).1⟩

/-- C7 witness on a concrete one-operation run. -/
theorem C7_cursor_count_bounds_witness :
    0 < 2 ∧ runOps (createCBuffer Nat 2) opsW7 = some bRunW7 ∧
    (bRunW7.cbSize = 2 ∧ bRunW7.dataCount ≤ 2 ∧ bRunW7.readPtr < 2 ∧
     bRunW7.writePtr < 2 ∧ (∀ i, i + 1 < 2 → wrapSucc 2 i = i + 1) ∧
     wrapSucc 2 (2 - 1) = 0) :=
  ⟨by decide, by decide,
   C7_cursor_count_bounds 2 opsW7 bRunW7 (by decide) (by decide)⟩

/-- C8 witness: a one-entry exact `cbCopy` equals one `cbRead`. -/
theorem C8_bulk_equals_iterated_witness :
    BoundsInv bW ∧
    cbCopy (some bW) false 1 false = (1, [some 5], some bWread) ∧ 0 < 1 ∧
    readList (some bW) 1 = ([some 5], some bWread) :=
  ⟨by decide, by decide, by decide,
   (C8_bulk_equals_iterated bW 1 1 false [] [some 5] (some bWread)
     (by decide)).1 (by decide) (by decide)⟩

/-- C9 witness: deleting a concrete buffer with the release flag frees
exactly its live elements. -/
theorem C9_destruction_ownership_witness :
    WF bW ∧
    ((deleteCBuffer (some bW) true).filterMap id).Perm
      ((liveList bW).filterMap id) :=
  ⟨by decide, (C9_destruction_ownership bW (by decide)).1⟩

/-- C10 witness on a concrete one-operation run. -/
theorem C10_cursor_relation_witness :
    0 < 2 ∧ runOps (createCBuffer Nat 2) opsW7 = some bRunW7 ∧
    bRunW7.writePtr = (bRunW7.readPtr + bRunW7.dataCount) % bRunW7.cbSize :=
  ⟨by decide, by decide,
   C10_cursor_relation 2 opsW7 bRunW7 (by decide) (by decide)⟩

end CircularBuffers
